import Mathlib

/-
Verification development for the fixplex module (fixed-precision unsigned
integer simplex tableau, src/math/polysat/fixplex_def.h).

The solver works over numerals modulo `M = 2 ^ w`.  Numerals are embedded as
`Nat` with explicit `% 2 ^ w` at every operation that can wrap.  The tableau,
variable table, row table, inequalities, trail and stashed bounds are embedded
as a `Fixplex` structure; each public and internal operation of
`fixplex_def.h` is translated as a function on that structure.

Parts of the repository that the definition file relies on but whose code is
not available here (`fixplex.h` declarations, `mod_interval_def.h`,
`sparse_matrix_def.h`, the dependency store) are modelled from the
specification; each such definition carries a doc comment saying so.
-/

/-- Sentinel for no-variable, matching the C++ `null_var = UINT_MAX`. -/
def nullVar : Nat := 4294967295

/-- `UINT_MAX`, used as the initial value of minimisation loops. -/
def uintMax : Nat := 4294967295

/-- `INT_MAX`, the initial value of `best_so_far` in `select_pivot_core`. -/
def intMax : Int := 2147483647

/-- Wrapping subtraction `a - b` modulo `2 ^ w` (C++ unsigned subtraction). -/
def msub (w a b : Nat) : Nat := (a + (2 ^ w - b % 2 ^ w)) % 2 ^ w

/-- Fuelled trailing-zero count: `tzAux f n` counts trailing zero bits of `n`,
returning `f` when `n = 0`. -/
def tzAux : Nat → Nat → Nat
  | 0, _ => 0
  | f + 1, n => if n % 2 = 1 then 0 else tzAux f (n / 2) + 1

/-- Modelled from the spec: the `Ext` manager's `trailing_zeros` on numerals
modulo `2 ^ w`; `tz(x)` is the number of trailing zero bits of `x`, treating
`0` as having `tz = w` (spec section 3, Numeral). -/
def tz (w n : Nat) : Nat := tzAux w (n % 2 ^ w)

/-- Modelled from the spec: values of the backtrackable dependency store
(`u_dependency`), a DAG of leaves and joins; `Dep.null` is the C++ `nullptr`
dependency (spec section 3, Dependency set). -/
inductive Dep where
  | null : Dep
  | leaf : Nat → Dep
  | join : Dep → Dep → Dep
deriving DecidableEq, Repr

/-- Modelled from the spec: `m_deps.mk_join`, which treats the null
dependency as a unit. -/
def mkJoin : Dep → Dep → Dep
  | Dep.null, b => b
  | Dep.leaf a, Dep.null => Dep.leaf a
  | Dep.join a b, Dep.null => Dep.join a b
  | a, b => Dep.join a b

/-- Right-nested join of a list of dependencies, as in the C++ calls
`mk_join(a, mk_join(b, mk_join(c, d)))`. -/
def joinAll : List Dep → Dep
  | [] => Dep.null
  | d :: rest => mkJoin d (joinAll rest)

/-- Modelled from the spec: `m_deps.linearize`, flattening a dependency set
into the list of leaf identifiers. -/
def Dep.lin : Dep → List Nat
  | Dep.null => []
  | Dep.leaf n => [n]
  | Dep.join a b => a.lin ++ b.lin

/-- Modelled from the spec: a modular interval `[lo, hi[` over the ring
modulo `2 ^ w` (`mod_interval`, spec section 3).  When `lo = hi` the interval
is the free marker (`lo = 0`, the whole ring) or the empty marker
(`lo ≠ 0`); when `lo > hi` the interval wraps. -/
structure MInterval where
  lo : Nat
  hi : Nat
deriving DecidableEq, Repr

/-- The free interval marker (whole ring). -/
def freeI : MInterval := ⟨0, 0⟩

/-- The empty interval marker. -/
def emptyI : MInterval := ⟨1, 1⟩

/-- Modelled from the spec: `mod_interval::is_free`. -/
def MInterval.isFreeB (i : MInterval) : Bool := i.lo == i.hi && i.lo == 0

/-- Modelled from the spec: `mod_interval::is_empty`. -/
def MInterval.isEmptyB (i : MInterval) : Bool := i.lo == i.hi && i.lo != 0

/-- Modelled from the spec: `mod_interval::contains` on the wrap-around
semantics of section 3. -/
def MInterval.containsB (i : MInterval) (v : Nat) : Bool :=
  if i.lo == i.hi then i.lo == 0
  else if i.lo < i.hi then decide (i.lo ≤ v) && decide (v < i.hi)
  else decide (i.lo ≤ v) || decide (v < i.hi)

/-- Number of elements of a non-free, non-empty modular interval. -/
def MInterval.len (w : Nat) (i : MInterval) : Nat := msub w i.hi i.lo

/-- Modelled from the spec: interval sum, a sound over-approximation of the
set of pairwise sums (spec section 3).  The free marker absorbs, matching the
short-circuit `if (range.is_free()) ...` in the C++ accumulation loops. -/
def MInterval.add (w : Nat) (a b : MInterval) : MInterval :=
  if a.isFreeB || b.isFreeB then freeI
  else if a.isEmptyB || b.isEmptyB then emptyI
  else
    let la := a.len w
    let lb := b.len w
    if 2 ^ w ≤ la + lb - 1 then freeI
    else ⟨(a.lo + b.lo) % 2 ^ w, (a.lo + b.lo + (la + lb - 1)) % 2 ^ w⟩

/-- Modelled from the spec: interval negation `{-x : x ∈ i}`. -/
def MInterval.neg (w : Nat) (a : MInterval) : MInterval :=
  if a.isFreeB then freeI
  else if a.isEmptyB then emptyI
  else ⟨msub w 1 a.hi, msub w 1 a.lo⟩

/-- Modelled from the spec: scalar multiplication of an interval by a
numeral, a sound over-approximation (spec section 3). -/
def MInterval.smul (w : Nat) (a : MInterval) (c : Nat) : MInterval :=
  if a.isFreeB then freeI
  else if a.isEmptyB then emptyI
  else if c % 2 ^ w = 0 then ⟨0, 1⟩
  else
    let la := a.len w
    if 2 ^ w ≤ (la - 1) * (c % 2 ^ w) + 1 then freeI
    else ⟨(a.lo * c) % 2 ^ w, (a.lo * c + ((la - 1) * (c % 2 ^ w) + 1)) % 2 ^ w⟩

/-- Interval difference, `a + (-b)` as in `mod_interval::operator-`. -/
def MInterval.sub (w : Nat) (a b : MInterval) : MInterval :=
  MInterval.add w a (MInterval.neg w b)

/-- Modelled from the spec: `mod_interval::operator&=`, intersection with
`[l, h[`.  The free and empty markers are handled exactly; two proper
(non-wrapping) intervals intersect to their clipped overlap or to the empty
marker; for wrapping operands the model conservatively keeps the current
interval (a sound over-approximation of the intersection). -/
def MInterval.inter (a : MInterval) (l h : Nat) : MInterval :=
  if a.isEmptyB then a
  else if l == h && l == 0 then a
  else if l == h then emptyI
  else if a.isFreeB then ⟨l, h⟩
  else if a.lo < a.hi && l < h then
    let lo2 := max a.lo l
    let hi2 := min a.hi h
    if lo2 < hi2 then ⟨lo2, hi2⟩ else emptyI
  else a

/-- Modelled from the spec: the closest point of an interval to a value,
used as `closest_value` in `make_var_feasible`; mirrors the choice made by
`value2delta`. -/
def MInterval.closest (w : Nat) (i : MInterval) (val : Nat) : Nat :=
  if i.containsB val then val
  else if i.lo == i.hi then val
  else if msub w i.lo val < msub w val i.hi then i.lo else msub w i.hi 1

/-- Per-variable record (`var_info`): current value, interval with endpoint
dependencies, base flag and base-row index. -/
structure VarInfo where
  value : Nat := 0
  intv : MInterval := freeI
  loDep : Dep := Dep.null
  hiDep : Dep := Dep.null
  isBase : Bool := false
  base2row : Nat := 0
deriving DecidableEq, Repr

/-- Per-row record (`row_info`): base variable, base coefficient, cached
row value and integrality flag. -/
structure RowInfo where
  base : Nat := nullVar
  baseCoeff : Nat := 0
  value : Nat := 0
  integral : Bool := true
deriving DecidableEq, Repr

/-- Inequality record (`ineq`): `v < w` or `v ≤ w` with an external
dependency tag and the transient activity flag. -/
structure Ineq where
  v : Nat := 0
  w : Nat := 0
  dep : Nat := 0
  strict : Bool := false
  active : Bool := false
deriving DecidableEq, Repr

/-- Stashed bound (`stashed_bound`): the previous interval and endpoint
dependencies of one variable, pushed by `update_bounds`. -/
structure Stash where
  v : Nat
  intv : MInterval
  loDep : Dep
  hiDep : Dep
deriving DecidableEq, Repr

/-- Trail entry kinds (`trail_i`). -/
inductive Trail where
  | incLevel : Trail
  | setBound : Trail
  | addRow : Trail
  | addIneq : Trail
deriving DecidableEq, Repr

/-- Default variable record. -/
def dVar : VarInfo := {}

/-- Default row record. -/
def dRow : RowInfo := {}

/-- Default inequality record. -/
def dIneq : Ineq := {}

/-- Default stashed bound. -/
def dStash : Stash := ⟨0, freeI, Dep.null, Dep.null⟩

/-- The solver state (`fixplex`): variable table, row table, sparse matrix
(as a total coefficient function, zero meaning absent), patch set, trail,
inequalities and equality-inference tables.  The sparse matrix keeps row and
column indices consistent by construction (spec section 4.1). -/
structure Fixplex where
  vars : List VarInfo := []
  rows : List RowInfo := []
  numRows : Nat := 0
  mat : Nat → Nat → Nat := fun _ _ => 0
  toPatch : List Nat := []
  trail : List Trail := []
  rowTrail : List Nat := []
  stashed : List Stash := []
  ineqs : List Ineq := []
  var2ineqs : List (List Nat) := []
  pending : List Nat := []
  touched : Nat → Bool := fun _ => false
  varEqs : List (Nat × Nat × Nat × Nat) := []
  value2fixed : Nat → Option (Nat × Nat) := fun _ => none
  unsatCore : List Nat := []
  numNonIntegral : Nat := 0
  leftBasis : List Nat := []
  bland : Bool := false
  rng : Nat := 0

/-- The empty solver state. -/
def initState : Fixplex := {}

/-- Read a variable record (out-of-range reads give the default record). -/
def getVar (s : Fixplex) (v : Nat) : VarInfo := s.vars.getD v dVar

/-- Read a row record. -/
def getRow (s : Fixplex) (r : Nat) : RowInfo := s.rows.getD r dRow

/-- Update a variable record in place. -/
def setVarF (s : Fixplex) (v : Nat) (f : VarInfo → VarInfo) : Fixplex :=
  { s with vars := s.vars.set v (f (s.vars.getD v dVar)) }

/-- Update a row record in place. -/
def setRowF (s : Fixplex) (r : Nat) (f : RowInfo → RowInfo) : Fixplex :=
  { s with rows := s.rows.set r (f (s.rows.getD r dRow)) }

/-- `value(v)`. -/
def value (s : Fixplex) (v : Nat) : Nat := (getVar s v).value

/-- `lo(v)`. -/
def lo (s : Fixplex) (v : Nat) : Nat := (getVar s v).intv.lo

/-- `hi(v)`. -/
def hi (s : Fixplex) (v : Nat) : Nat := (getVar s v).intv.hi

/-- `is_base(v)`. -/
def isBase (s : Fixplex) (v : Nat) : Bool := (getVar s v).isBase

/-- `base2row(v)` (the row id; the C++ wraps it in a `row`). -/
def base2row (s : Fixplex) (v : Nat) : Nat := (getVar s v).base2row

/-- `row2base(r)`. -/
def row2base (s : Fixplex) (r : Nat) : Nat := (getRow s r).base

/-- `row2value(r)`. -/
def row2value (s : Fixplex) (r : Nat) : Nat := (getRow s r).value

/-- `row2base_coeff(r)`. -/
def row2baseCoeff (s : Fixplex) (r : Nat) : Nat := (getRow s r).baseCoeff

/-- `row_is_integral(r)`. -/
def rowIntegral (s : Fixplex) (r : Nat) : Bool := (getRow s r).integral

/-- Modelled from the spec: `in_bounds(v)`, the variable's value lies in its
interval. -/
def inBounds (s : Fixplex) (v : Nat) : Bool := (getVar s v).intv.containsB (value s v)

/-- Modelled from the spec: `is_fixed(v)`, i.e. `lo(v) + 1 == hi(v)` with
wrapping addition (spec section 8, fixed variable). -/
def isFixed (w : Nat) (s : Fixplex) (v : Nat) : Bool :=
  (lo s v + 1) % 2 ^ w == hi s v

/-- Modelled from the spec: `is_free(v)`, the variable's interval is the
whole ring. -/
def isFreeVar (s : Fixplex) (v : Nat) : Bool := (getVar s v).intv.isFreeB

/-- Modelled from the spec: `is_non_free(v)` as a 0/1 count. -/
def isNonFree (s : Fixplex) (v : Nat) : Bool := !(isFreeVar s v)

/-- Modelled from the spec: `is_valid_variable(v)`. -/
def isValidVar (s : Fixplex) (v : Nat) : Bool := decide (v < s.vars.length)

/-- The variables of row `r` (`M.row_entries(r)`): variables with a non-zero
coefficient, iterated in variable order. -/
def rowVars (s : Fixplex) (r : Nat) : List Nat :=
  (List.range s.vars.length).filter (fun v => s.mat r v != 0)

/-- The rows of variable `v`'s column (`M.col_entries(v)`): rows with a
non-zero coefficient for `v`, iterated in row order. -/
def colRows (s : Fixplex) (v : Nat) : List Nat :=
  (List.range s.numRows).filter (fun r => s.mat r v != 0)

/-- `M.column_size(v)`. -/
def columnSize (s : Fixplex) (v : Nat) : Nat := (colRows s v).length

/-- `solve_for(row_value, c)`: solve `c * x + row_value = 0` approximately
(fixplex_def.h, lines 983-993). -/
def solve_for (w rv c : Nat) : Nat :=
  if c = 1 then msub w 0 rv
  else if (c + 1) % 2 ^ w = 0 then rv
  else if msub w 0 c < c then rv / msub w 0 c
  else msub w 0 (rv / c)

/-- `is_solved(r)`: the row balances exactly at the base variable
(fixplex_def.h, lines 955-958). -/
def isSolved (w : Nat) (s : Fixplex) (r : Nat) : Bool :=
  (value s (row2base s r) * row2baseCoeff s r + row2value s r) % 2 ^ w == 0

/-- The loop body of `touch_var`: activate and enqueue each inequality of
the variable unless it is already active. -/
def touchFold : Fixplex → List Nat → Fixplex
  | t, [] => t
  | t, idx :: rest =>
    if (t.ineqs.getD idx dIneq).active then touchFold t rest
    else
      touchFold
        { t with
          ineqs := t.ineqs.set idx { t.ineqs.getD idx dIneq with active := true },
          pending := t.pending ++ [idx] } rest

/-- `touch_var(v)` (fixplex_def.h, lines 596-609): no-op when the variable is
beyond the inequality index or already touched; otherwise mark it touched and
activate and enqueue its inequalities. -/
def touch_var (s : Fixplex) (v : Nat) : Fixplex :=
  if s.var2ineqs.length ≤ v then s
  else if s.touched v then s
  else
    touchFold { s with touched := fun u => if u = v then true else s.touched u }
      (s.var2ineqs.getD v [])

/-- Insertion into the patch set, deduplicating (`m_to_patch.insert`). -/
def insertPatch (l : List Nat) (v : Nat) : List Nat :=
  if v ∈ l then l else l ++ [v]

/-- `add_patch(v)` (fixplex_def.h, lines 893-899): queue the variable for
patching when out of bounds. -/
def add_patch (s : Fixplex) (v : Nat) : Fixplex :=
  if inBounds s v then s else { s with toPatch := insertPatch s.toPatch v }

/-- `set_base_value(x)` (fixplex_def.h, lines 995-1007): recompute the base
variable's value from its row, touch it, and refresh the row's integrality
flag and the non-integral counter. -/
def set_base_value (w : Nat) (s : Fixplex) (x : Nat) : Fixplex :=
  let r := base2row s x
  let s1 := setVarF s x (fun vi => { vi with value := solve_for w (row2value s r) (row2baseCoeff s r) })
  let s2 := touch_var s1 x
  let was := rowIntegral s2 r
  let solved := isSolved w s2 r
  let s3 := setRowF s2 r (fun ri => { ri with integral := solved })
  if was && !solved then { s3 with numNonIntegral := s3.numNonIntegral + 1 }
  else if !was && solved then { s3 with numNonIntegral := s3.numNonIntegral - 1 }
  else s3

/-- The column loop of `update_value`: propagate the delta into each row's
cached value, recompute the base value and queue the base for patching. -/
def uvFold (w v delta : Nat) : Fixplex → List Nat → Fixplex
  | t, [] => t
  | t, r :: rest =>
    let t1 := setRowF t r (fun ri => { ri with value := (ri.value + delta * t.mat r v) % 2 ^ w })
    let b := row2base t1 r
    let t2 := add_patch (set_base_value w t1 b) b
    uvFold w v delta t2 rest

/-- `update_value(v, delta)` (fixplex_def.h, lines 305-328): increment a
non-base variable by `delta`, touch it, and update every row of its column. -/
def update_value (w : Nat) (s : Fixplex) (v delta : Nat) : Fixplex :=
  if delta = 0 then s
  else
    let s1 := setVarF s v (fun vi => { vi with value := (vi.value + delta) % 2 ^ w })
    let s2 := touch_var s1 v
    uvFold w v delta s2 (colRows s2 v)

/-- `value2delta(v, value)` (fixplex_def.h, lines 493-502). -/
def value2delta (w : Nat) (s : Fixplex) (v val : Nat) : Nat :=
  if msub w (lo s v) val < msub w val (hi s v) then msub w (lo s v) val
  else msub w (msub w (hi s v) val) 1

/-- `value2error(v, value)` (fixplex_def.h, lines 504-513). -/
def value2error (w : Nat) (s : Fixplex) (v val : Nat) : Nat :=
  if inBounds s v then 0
  else if msub w (lo s v) val < msub w val (hi s v) then msub w (lo s v) val
  else msub w (msub w val (hi s v)) 1

/-- `update_bounds(v, l, h, dep)` (fixplex_def.h, lines 534-545): stash the
current bound on the trail, intersect with `[l, h[`, and attach the
dependency to each endpoint that moved. -/
def update_bounds (w : Nat) (s : Fixplex) (v l h : Nat) (dep : Dep) : Fixplex :=
  let lo0 := lo s v
  let hi0 := hi s v
  let s1 :=
    { s with
      stashed := s.stashed ++ [⟨v, (getVar s v).intv, (getVar s v).loDep, (getVar s v).hiDep⟩],
      trail := s.trail ++ [Trail.setBound] }
  let ni := (getVar s v).intv.inter l h
  let s2 := setVarF s1 v (fun vi => { vi with intv := ni })
  let s3 := if lo0 ≠ ni.lo then setVarF s2 v (fun vi => { vi with loDep := dep }) else s2
  if hi0 ≠ ni.hi then setVarF s3 v (fun vi => { vi with hiDep := dep }) else s3

/-- `ensure_var(v)` (fixplex_def.h, lines 106-114): grow the variable table
to cover `v`. -/
def ensure_var (s : Fixplex) (v : Nat) : Fixplex :=
  { s with vars := s.vars ++ List.replicate (v + 1 - s.vars.length) dVar }

/-- `set_bounds(v, l, h, dep)` (fixplex_def.h, lines 522-532): intersect the
variable's interval; when the value falls out of bounds, queue a base
variable for patching or shift a non-base variable's value. -/
def set_bounds (w : Nat) (s : Fixplex) (v l h dep : Nat) : Fixplex :=
  let s0 := ensure_var s v
  let s1 := update_bounds w s0 v l h (Dep.leaf dep)
  if inBounds s1 v then s1
  else if isBase s1 v then add_patch s1 v
  else update_value w s1 v (value2delta w s1 v (value s1 v))

/-- `set_value(v, val, dep)` (fixplex_def.h, lines 554-558): shorthand for
`set_bounds(v, val, val + 1, dep)`. -/
def set_value (w : Nat) (s : Fixplex) (v val dep : Nat) : Fixplex :=
  set_bounds w s v (val % 2 ^ w) ((val + 1) % 2 ^ w) dep

/-- `restore_bound()` (fixplex_def.h, lines 565-573): pop the last stashed
bound and restore the variable's interval and endpoint dependencies. -/
def restore_bound (s : Fixplex) : Fixplex :=
  let b := s.stashed.getLastD dStash
  { setVarF s b.v (fun vi => { vi with intv := b.intv, loDep := b.loDep, hiDep := b.hiDep }) with
    stashed := s.stashed.dropLast }

/-- `push()` (fixplex_def.h, lines 75-79).  The dependency store's
`push_scope` is modelled as a no-op on pure dependency values. -/
def push (s : Fixplex) : Fixplex :=
  { s with trail := s.trail ++ [Trail.incLevel] }

/-- `add_ineq(v, w, dep, strict)` (fixplex_def.h, lines 575-586). -/
def add_ineq (s : Fixplex) (v w dep : Nat) (strict : Bool) : Fixplex :=
  let s0 := ensure_var (ensure_var s v) w
  let idx := s0.ineqs.length
  let v2a := s0.var2ineqs ++ List.replicate (max v w + 1 - s0.var2ineqs.length) []
  let v2b := v2a.set v (v2a.getD v [] ++ [idx])
  let v2c := v2b.set w (v2b.getD w [] ++ [idx])
  { s0 with
    var2ineqs := v2c,
    pending := s0.pending ++ [idx],
    trail := s0.trail ++ [Trail.addIneq],
    ineqs := s0.ineqs ++ [⟨v, w, dep, strict, false⟩] }

/-- `restore_ineq()` (fixplex_def.h, lines 588-594). -/
def restore_ineq (s : Fixplex) : Fixplex :=
  let i := s.ineqs.getLastD dIneq
  let v2a := s.var2ineqs.set i.v (s.var2ineqs.getD i.v []).dropLast
  let v2b := v2a.set i.w (v2a.getD i.w []).dropLast
  { s with var2ineqs := v2b, ineqs := s.ineqs.dropLast }

/-- `eliminate_var(r_y, r_z, c, tz_b, old_value_y)` (fixplex_def.h, lines
820-848): combine row `r_z` with the pivot row `r_y` to eliminate the pivot
variable, refresh the cached row value and base coefficient, recompute the
base value, and report whether the elimination is lossless. -/
def eliminate_var (w : Nat) (s : Fixplex) (ry rz c tzb oldY : Nat) : Fixplex × Bool :=
  let b := row2baseCoeff s ry
  let z := row2base s rz
  let tzc := tz w c
  let b1 := if tzb ≤ tzc then b / 2 ^ tzb else b / 2 ^ (tzb - tzc)
  let c1 := if tzb ≤ tzc then msub w 0 (c / 2 ^ (tzc - tzb)) else msub w 0 (c / 2 ^ tzc)
  let s1 := { s with mat := fun r v => if r = rz then (s.mat r v * b1) % 2 ^ w else s.mat r v }
  let s2 := { s1 with mat := fun r v => if r = rz then (s1.mat r v + c1 * s1.mat ry v) % 2 ^ w else s1.mat r v }
  let s3 := setRowF s2 rz (fun ri =>
    { ri with value := (b1 * msub w (row2value s2 rz) ((c * oldY) % 2 ^ w) + c1 * row2value s2 ry) % 2 ^ w })
  let s4 := setRowF s3 rz (fun ri => { ri with baseCoeff := (ri.baseCoeff * b1) % 2 ^ w })
  (set_base_value w s4 z, decide (tzb ≤ tzc))

/-- The elimination loop of `pivot` over the snapshot of the pivot
variable's column, also conjoining the `VERIFY(eliminate_var(..))` results. -/
def pivotFold (w rx tzb oldY : Nat) : Fixplex × Bool → List (Nat × Nat) → Fixplex × Bool
  | acc, [] => acc
  | acc, (rz, c) :: rest =>
    if rz = rx then pivotFold w rx tzb oldY acc rest
    else
      let e := eliminate_var w acc.1 rx rz c tzb oldY
      pivotFold w rx tzb oldY (add_patch e.1 (row2base e.1 rz), acc.2 && e.2) rest

/-- `pivot(x, y, b, new_value)` (fixplex_def.h, lines 773-809): swap the base
role from `x` to `y` in `x`'s row, then eliminate `y` from every other row of
its column.  The boolean conjoins the `VERIFY`'d losslessness flags of the
eliminations. -/
def pivot (w : Nat) (s : Fixplex) (x y b newValue : Nat) : Fixplex × Bool :=
  let rx := base2row s x
  let a := row2baseCoeff s rx
  let oldY := value s y
  let s1 := setRowF s rx (fun ri =>
    { ri with base := y, value := (msub w ri.value ((b * oldY) % 2 ^ w) + a * newValue) % 2 ^ w, baseCoeff := b })
  let s2 := setVarF s1 y (fun vi => { vi with base2row := rx, isBase := true })
  let s3 := set_base_value w s2 y
  let s4 := setVarF s3 x (fun vi => { vi with isBase := false, value := newValue })
  let s5 := touch_var s4 x
  let s6 := add_patch s5 y
  let tzb := tz w b
  pivotFold w rx tzb oldY (s6, true) ((colRows s6 y).map (fun r => (r, s6.mat r y)))

/-- `del_row(row r)` (fixplex_def.h, lines 250-260): clear the equality list,
unflag and free the base variable, and remove the row from the matrix. -/
def del_row_r (s : Fixplex) (r : Nat) : Fixplex :=
  let v := row2base s r
  let s1 := setVarF { s with varEqs := [] } v (fun vi => { vi with isBase := false, intv := freeI })
  let s2 := setRowF s1 r (fun ri => { ri with base := nullVar })
  { s2 with mat := fun rr vv => if rr = r then 0 else s2.mat rr vv }

/-- `del_row(var)` (fixplex_def.h, lines 262-300): if the variable is not
base, pivot it into the column row whose coefficient has minimal trailing
zeros, then delete that row. -/
def del_row_v (w : Nat) (s : Fixplex) (v : Nat) : Fixplex :=
  if isBase s v then del_row_r s (base2row s v)
  else
    let best := (colRows s v).foldl
      (fun (acc : Option (Nat × Nat × Nat)) r =>
        let tzc := tz w (s.mat r v)
        match acc with
        | none => some (r, tzc, s.mat r v)
        | some (r0, t0, c0) => if tzc < t0 then some (r, tzc, s.mat r v) else some (r0, t0, c0))
      none
    match best with
    | none => s
    | some (r, _, coeff) =>
      let oldBase := row2base s r
      let newValue := if !(getVar s oldBase).intv.containsB (value s oldBase) then lo s oldBase
                      else value s oldBase
      del_row_r (pivot w s oldBase v coeff newValue).1 r

/-- The unwinding loop of `pop(n)`, with fuel bounded by the trail length. -/
def popAux (w : Nat) : Nat → Nat → Fixplex → Fixplex
  | 0, _, s => s
  | _ + 1, 0, s => s
  | fuel + 1, n, s =>
    match s.trail.getLast? with
    | none => s
    | some Trail.incLevel => popAux w fuel (n - 1) { s with trail := s.trail.dropLast }
    | some Trail.setBound =>
      let s1 := restore_bound s
      popAux w fuel n { s1 with trail := s1.trail.dropLast }
    | some Trail.addRow =>
      let v := s.rowTrail.getLastD 0
      let s1 := del_row_v w s v
      let s2 := { s1 with rowTrail := s1.rowTrail.dropLast }
      popAux w fuel n { s2 with trail := s2.trail.dropLast }
    | some Trail.addIneq =>
      let s1 := restore_ineq s
      popAux w fuel n { s1 with trail := s1.trail.dropLast }

/-- `pop(n)` (fixplex_def.h, lines 81-104): unwind the trail until `n` scope
markers are consumed.  The dependency store's `pop_scope` is modelled as a
no-op on pure dependency values. -/
def pop (w : Nat) (s : Fixplex) (n : Nat) : Fixplex :=
  popAux w s.trail.length n s

/-- The three-valued result type (`lbool`). -/
inductive Lbool where
  | ltrue : Lbool
  | lfalse : Lbool
  | lundef : Lbool
deriving DecidableEq, Repr

/-- `has_minimal_trailing_zeros(y, b)` (fixplex_def.h, lines 664-676): the
coefficient `b` has the minimal trailing-zero count across `y`'s column. -/
def has_minimal_trailing_zeros (w : Nat) (s : Fixplex) (y b : Nat) : Bool :=
  let tz1 := tz w b
  if tz1 = 0 then true
  else (colRows s y).all (fun r => decide (tz1 ≤ tz w (s.mat r y)))

/-- `is_infeasible_row(x)` (fixplex_def.h, lines 693-706): sum the scaled
variable intervals of `x`'s row; the row is infeasible when the sum does not
contain `0`.  The free marker absorbs in `MInterval.add`, so the C++
short-circuit on a free range yields the same result. -/
def is_infeasible_row (w : Nat) (s : Fixplex) (x : Nat) : Bool :=
  let r := base2row s x
  let range := (rowVars s r).foldl
    (fun acc v => MInterval.add w acc (MInterval.smul w (getVar s v).intv (s.mat r v))) ⟨0, 1⟩
  !(range.containsB 0)

/-- `is_parity_infeasible_row(x)` (fixplex_def.h, lines 718-739): on a
non-integral row, accumulate the fixed sum and the minimal parity of
non-fixed coefficients in one pass and compare. -/
def is_parity_infeasible_row (w : Nat) (s : Fixplex) (x : Nat) : Bool :=
  let r := base2row s x
  if rowIntegral s r then false
  else
    let fp := (rowVars s r).foldl
      (fun (acc : Nat × Nat) v =>
        if isFixed w s v then ((acc.1 + value s v * s.mat r v) % 2 ^ w, acc.2)
        else (acc.1, min (tz w (s.mat r v)) acc.2)) (0, uintMax)
    decide (tz w fp.1 < fp.2)

/-- The sum `Σ coeff·value(v)` over the fixed variables of row `r`, modulo
`2 ^ w` (the `fixed` accumulator of `is_parity_infeasible_row`). -/
def rowFixedSum (w : Nat) (s : Fixplex) (r : Nat) : Nat :=
  (rowVars s r).foldl
    (fun acc v => if isFixed w s v then (acc + value s v * s.mat r v) % 2 ^ w else acc) 0

/-- The minimal trailing-zero count over the coefficients of the non-fixed
variables of row `r` (`UINT_MAX` when there is none). -/
def rowParity (w : Nat) (s : Fixplex) (r : Nat) : Nat :=
  (rowVars s r).foldl
    (fun acc v => if isFixed w s v then acc else min (tz w (s.mat r v)) acc) uintMax

/-- `select_error_var(least)` (fixplex_def.h, lines 915-935): pick the patch
candidate with least or greatest error, skipping zero-error entries. -/
def select_error_var (w : Nat) (s : Fixplex) (least : Bool) : Fixplex × Nat :=
  let best := s.toPatch.foldl
    (fun (acc : Nat × Nat) v =>
      let err := value2error w s v (value s v)
      if err = 0 then acc
      else if acc.1 = nullVar ∨ (least = true ∧ err < acc.2) ∨ (least = false ∧ acc.2 < err) then
        (v, err)
      else acc) (nullVar, 0)
  if best.1 = nullVar then ({ s with toPatch := [] }, nullVar)
  else ({ s with toPatch := s.toPatch.erase best.1 }, best.1)

/-- Modelled from the spec: `select_smallest_var` for Bland's rule; pick the
smallest-index variable of the patch set (spec section 4.4). -/
def select_smallest_var (s : Fixplex) : Fixplex × Nat :=
  let m := s.toPatch.foldl (fun acc v => if v < acc then v else acc) nullVar
  if m = nullVar then (s, nullVar)
  else ({ s with toPatch := s.toPatch.erase m }, m)

/-- `select_var_to_fix()` (fixplex_def.h, lines 901-913).  The pivot
strategy is modelled from the spec as Bland's selection once engaged and
greatest-error selection otherwise. -/
def select_var_to_fix (w : Nat) (s : Fixplex) : Fixplex × Nat :=
  if s.bland then select_smallest_var s else select_error_var w s false

/-- Modelled from the spec: the default `m_blands_rule_threshold`
(spec section 4.4, default 1000). -/
def blandsRuleThreshold : Nat := 1000

/-- `check_blands_rule(v, num_repeated)` (fixplex_def.h, lines 937-948). -/
def check_blands_rule (s : Fixplex) (v numRepeated : Nat) : Fixplex × Nat :=
  if s.bland then (s, numRepeated)
  else if v ∈ s.leftBasis then
    let nr := numRepeated + 1
    ({ s with bland := decide (blandsRuleThreshold < nr) }, nr)
  else ({ s with leftBasis := s.leftBasis ++ [v] }, numRepeated)

/-- `get_num_non_free_dep_vars(x_j, best_so_far)` (fixplex_def.h, lines
881-891), with the early return once the partial count exceeds
`best_so_far`. -/
def get_num_non_free_dep_vars (s : Fixplex) (y : Nat) (best : Int) : Int :=
  let init : Int := if isNonFree s y then 1 else 0
  ((colRows s y).foldl
    (fun (acc : Int × Bool) r =>
      if acc.2 then acc
      else
        let acc1 := acc.1 + (if isNonFree s (row2base s r) then 1 else 0)
        (acc1, decide (best < acc1))) (init, false)).1

/-- Modelled from the spec: the deterministic pseudo-random source used for
plateau tie-breaking (spec section 9), as a linear congruential step. -/
def nextRng (x : Nat) : Nat := (x * 1103515245 + 12345) % 4294967296

/-- `select_pivot_core(x, new_value)` (fixplex_def.h, lines 380-452): scan
the row of `x` for a pivot candidate with minimal trailing zeros, scored by
in-boundedness, gap, non-free dependents and column size, breaking plateau
ties by reservoir sampling; returns the updated random state, the candidate
(or `nullVar`) and its coefficient. -/
def select_pivot_core (w : Nat) (s : Fixplex) (x newValue : Nat) : Fixplex × Nat × Nat := Id.run do
  let maxV := s.vars.length
  let mut result := maxV
  let mut outB : Nat := 0
  let r := base2row s x
  let mut n : Nat := 0
  let mut bestColSz : Nat := uintMax
  let mut bestSoFar : Int := intMax
  let a := row2baseCoeff s r
  let rowVal := (row2value s r + a * newValue) % 2 ^ w
  let mut deltaY : Nat := 0
  let mut deltaBest : Nat := 0
  let mut bestInBounds : Bool := false
  let mut st := s
  for y in rowVars s r do
    let b := s.mat r y
    if x = y then
      continue
    if !has_minimal_trailing_zeros w s y b then
      continue
    let newYValue := solve_for w (msub w rowVal ((b * value s y) % 2 ^ w)) b
    let inB := (getVar s y).intv.containsB newYValue
    if !inB then
      if msub w (lo s y) newYValue < msub w newYValue (hi s y) then
        deltaY := msub w newYValue (lo s y)
      else
        deltaY := msub w (msub w newYValue (hi s y)) 1
    let num := get_num_non_free_dep_vars s y bestSoFar
    let colSz := columnSize s y
    let mut isImprovement := false
    let mut isPlateau := false
    if bestSoFar = intMax then
      isImprovement := true
    else if ¬bestInBounds ∧ inB then
      isImprovement := true
    else if ¬bestInBounds ∧ ¬inB ∧ deltaY < deltaBest then
      isImprovement := true
    else if bestInBounds ∧ inB ∧ num < bestSoFar then
      isImprovement := true
    else if bestInBounds ∧ inB ∧ num = bestSoFar ∧ colSz < bestColSz then
      isImprovement := true
    else if ¬bestInBounds ∧ ¬inB ∧ deltaY = deltaBest ∧ bestSoFar = num ∧ colSz = bestColSz then
      isPlateau := true
    else if bestInBounds ∧ inB ∧ bestSoFar = num ∧ colSz = bestColSz then
      isPlateau := true
    if isImprovement then
      result := y
      outB := b
      bestSoFar := num
      bestColSz := colSz
      bestInBounds := inB
      deltaBest := deltaY
      n := 1
    else if isPlateau then
      n := n + 1
      let rnd := st.rng
      st := { st with rng := nextRng st.rng }
      if rnd % n = 0 then
        result := y
        outB := b
  if result = maxV then
    return (st, nullVar, outB)
  if ¬bestInBounds ∧ value2delta w s x newValue ≤ deltaBest then
    return (st, nullVar, outB)
  return (st, result, outB)

/-- `make_var_feasible(x)` (fixplex_def.h, lines 342-362). -/
def make_var_feasible (w : Nat) (s : Fixplex) (x : Nat) : Fixplex × Lbool :=
  if inBounds s x then (s, Lbool.ltrue)
  else if (getVar s x).intv.isEmptyB then (s, Lbool.lfalse)
  else
    let newValue := (getVar s x).intv.closest w (value s x)
    let sel := select_pivot_core w s x newValue
    if sel.2.1 = nullVar then
      if is_infeasible_row w sel.1 x then (sel.1, Lbool.lfalse) else (sel.1, Lbool.lundef)
    else ((pivot w sel.1 x sel.2.1 sel.2.2 newValue).1, Lbool.ltrue)

/-- `set_infeasible_base(v)` (fixplex_def.h, lines 861-873): linearise the
endpoint dependencies of the row's variables into the unsat core. -/
def set_infeasible_base (s : Fixplex) (v : Nat) : Fixplex :=
  let r := base2row s v
  let core := (rowVars s r).foldl
    (fun acc u => acc ++ (getVar s u).loDep.lin ++ (getVar s u).hiDep.lin) []
  { s with unsatCore := core }

/-- The per-inequality check of `ineqs_are_satisfied` (fixplex_def.h, lines
627-642). -/
def checkIneqSat (s : Fixplex) (idx : Nat) : Bool :=
  if s.ineqs.length ≤ idx then true
  else
    let i := s.ineqs.getD idx dIneq
    if i.strict = true ∧ value s i.w ≤ value s i.v then false
    else if i.strict = false ∧ value s i.w < value s i.v then false
    else true

/-- `reset_ineqs_to_check()` (fixplex_def.h, lines 611-622). -/
def reset_ineqs_to_check (s : Fixplex) : Fixplex :=
  let s1 := s.pending.foldl
    (fun t idx =>
      if t.ineqs.length ≤ idx then t
      else
        let i := t.ineqs.getD idx dIneq
        { t with
          touched := fun u => if u = i.v ∨ u = i.w then false else t.touched u,
          ineqs := t.ineqs.set idx { i with active := false } }) s
  { s1 with pending := [] }

/-- `ineqs_are_satisfied()` (fixplex_def.h, lines 627-642): check every
pending inequality against the current values; on success reset the pending
set. -/
def ineqs_are_satisfied (s : Fixplex) : Fixplex × Bool :=
  if s.pending.all (fun idx => checkIneqSat s idx) then (reset_ineqs_to_check s, true)
  else (s, false)

/-- `conflict(dep)` (fixplex_def.h, lines 1381-1386). -/
def conflictD (s : Fixplex) (d : Dep) : Fixplex := { s with unsatCore := d.lin }

/-- The joined-dependency conflict overloads used by the propagation rules. -/
def conflictList (s : Fixplex) (ds : List Dep) : Fixplex := conflictD s (joinAll ds)

/-- `row2dep(r)` (fixplex_def.h, lines 1388-1397). -/
def row2dep (s : Fixplex) (r : Nat) : Dep :=
  (rowVars s r).foldl
    (fun d v => mkJoin (getVar s v).hiDep (mkJoin (getVar s v).loDep d)) Dep.null

/-- `new_bound(ineq, x, l, h, deps)` (fixplex_def.h, lines 1399-1413):
intersect and conflict on emptiness.  The `was_fixed`/`fixed_var_eh` branch
of this overload is disabled in the source (a TBD comment). -/
def new_bound_i (w : Nat) (s : Fixplex) (i : Ineq) (x l h : Nat) (ds : List Dep) : Fixplex × Bool :=
  let dep := mkJoin (Dep.leaf i.dep) (joinAll ds)
  let s1 := update_bounds w s x l h dep
  if (getVar s1 x).intv.isEmptyB then
    (conflictList s1 [(getVar s1 x).loDep, (getVar s1 x).hiDep], false)
  else (s1, true)

/-- `eq_eh(x, y, r1, r2)` (fixplex_def.h, lines 1110-1113). -/
def eq_eh (s : Fixplex) (x y r1 r2 : Nat) : Fixplex :=
  { s with varEqs := s.varEqs ++ [(x, y, r1, r2)] }

/-- `fixed_var_eh(r, x)` (fixplex_def.h, lines 1100-1108): look the value up
in the fixed-value table; a valid collision emits an equality, otherwise the
entry is (re)inserted. -/
def fixed_var_eh (w : Nat) (s : Fixplex) (r x : Nat) : Fixplex :=
  let val := value s x
  match s.value2fixed val with
  | some e =>
    if isValidVar s e.1 = true ∧ isFixed w s e.1 = true ∧ value s e.1 = val ∧ e.1 ≠ x then
      eq_eh s x e.1 e.2 r
    else { s with value2fixed := fun n => if n = val then some (x, r) else s.value2fixed n }
  | none => { s with value2fixed := fun n => if n = val then some (x, r) else s.value2fixed n }

/-- `new_bound(row, x, range)` (fixplex_def.h, lines 1415-1427): a free range
tightens nothing; otherwise intersect, conflict on emptiness, and invoke
`fixed_var_eh` when the variable newly became fixed. -/
def new_bound_row (w : Nat) (s : Fixplex) (r x : Nat) (range : MInterval) : Fixplex × Bool :=
  if range.isFreeB then (s, true)
  else
    let wasFixed := (lo s x + 1) % 2 ^ w == hi s x
    let s1 := update_bounds w s x range.lo range.hi (row2dep s r)
    if (getVar s1 x).intv.isEmptyB then
      (conflictList s1 [(getVar s1 x).loDep, (getVar s1 x).hiDep], false)
    else if !wasFixed && (lo s1 x + 1) % 2 ^ w == hi s1 x then (fixed_var_eh w s1 r x, true)
    else (s1, true)

/-- The accumulation pass of `propagate_bounds(row)` (fixplex_def.h, lines
1139-1156): track the unique free variable and sum the scaled intervals of
the others; `none` encodes the early `l_true` returns (second free variable,
or the range becoming free). -/
def pbrScan (w : Nat) (s : Fixplex) (r : Nat) :
    List Nat → Nat → Nat → MInterval → Option (Nat × Nat × MInterval)
  | [], freeV, freeC, range => some (freeV, freeC, range)
  | v :: vs, freeV, freeC, range =>
    let c := s.mat r v
    if (getVar s v).intv.isFreeB then
      if freeV ≠ nullVar then none
      else pbrScan w s r vs v c range
    else
      let range2 := MInterval.add w range (MInterval.smul w (getVar s v).intv c)
      if range2.isFreeB then none
      else pbrScan w s r vs freeV freeC range2

/-- The per-variable candidate loop of `propagate_bounds(row)` (fixplex_def.h,
lines 1164-1173): install `range - interval(v)·coeff` for each variable,
stopping at the first conflict. -/
def installLoop (w r : Nat) (range : MInterval) : Fixplex → List Nat → Fixplex × Lbool
  | s, [] => (s, Lbool.ltrue)
  | s, v :: vs =>
    let range1 := MInterval.sub w range (MInterval.smul w (getVar s v).intv (s.mat r v))
    let p := new_bound_row w s r v range1
    if p.2 then installLoop w r range p.1 vs else (p.1, Lbool.lfalse)

/-- `propagate_bounds(row)` (fixplex_def.h, lines 1138-1174). -/
def propagate_bounds_row (w : Nat) (s : Fixplex) (r : Nat) : Fixplex × Lbool :=
  match pbrScan w s r (rowVars s r) nullVar 0 ⟨0, 1⟩ with
  | none => (s, Lbool.ltrue)
  | some (freeV, freeC, range) =>
    if freeV ≠ nullVar then
      let range2 := MInterval.smul w (MInterval.neg w range) freeC
      let p := new_bound_row w s r freeV range2
      (p.1, if p.2 then Lbool.ltrue else Lbool.lfalse)
    else installLoop w r range s (rowVars s r)

/-- `propagate_strict_bounds(i)` (fixplex_def.h, lines 1176-1274): the rule
list for `v < w`, combining the first block, the manual patch and the
generated block.  Guards re-read the current bounds; the endpoint
dependencies are captured once at entry, as in the source. -/
def propagate_strict_bounds (w : Nat) (s : Fixplex) (i : Ineq) : Fixplex × Bool := Id.run do
  let vlo := (getVar s i.v).loDep
  let vhi := (getVar s i.v).hiDep
  let wlo := (getVar s i.w).loDep
  let whi := (getVar s i.w).hiDep
  let mut st := s
  if lo st i.w = 0 then
    let p := new_bound_i w st i i.w ((lo st i.w + 1) % 2 ^ w) (lo st i.w) [wlo]
    st := p.1
    if !p.2 then return (st, false)
  if hi st i.w = 1 then
    let p := new_bound_i w st i i.w (lo st i.w) (msub w (hi st i.w) 1) [whi]
    st := p.1
    if !p.2 then return (st, false)
  if hi st i.w ≤ hi st i.v ∧ lo st i.w ≤ hi st i.w ∧ ¬isFreeVar st i.w then
    let p := new_bound_i w st i i.v (lo st i.v) (msub w (hi st i.v) 1) [vhi, whi, wlo]
    st := p.1
    if !p.2 then return (st, false)
  if hi st i.v = 0 ∧ lo st i.w ≤ lo st i.v then
    let p := new_bound_i w st i i.w ((lo st i.v + 1) % 2 ^ w) (hi st i.v) [vhi, vlo, wlo]
    st := p.1
    if !p.2 then return (st, false)
  if hi st i.v = 0 ∧ ¬isFreeVar st i.v then
    let p := new_bound_i w st i i.v (lo st i.v) (msub w (hi st i.v) 1) [vhi]
    st := p.1
    if !p.2 then return (st, false)
  if lo st i.w ≤ lo st i.v ∧ lo st i.v ≤ hi st i.v then
    let p := new_bound_i w st i i.w ((lo st i.v + 1) % 2 ^ w) (lo st i.v) [vlo, vhi, wlo]
    st := p.1
    if !p.2 then return (st, false)
  if (lo st i.v + 1) % 2 ^ w = hi st i.w ∧ lo st i.v ≤ hi st i.v then
    let p := new_bound_i w st i i.w (lo st i.w) (msub w (hi st i.w) 1) [vlo, vhi, whi]
    st := p.1
    if !p.2 then return (st, false)
  if ¬(lo st i.v ≤ hi st i.v) ∧ isFixed w st i.w ∧ lo st i.w ≤ hi st i.v then
    let p := new_bound_i w st i i.v ((lo st i.v + 1) % 2 ^ w) (msub w (hi st i.w) 1) [vlo, vhi, whi, wlo]
    st := p.1
    if !p.2 then return (st, false)
  if (lo st i.v + 1) % 2 ^ w = hi st i.w ∧ lo st i.w ≤ hi st i.w then
    let p := new_bound_i w st i i.v ((lo st i.v + 1) % 2 ^ w) (hi st i.v) [vlo, whi, wlo]
    st := p.1
    if !p.2 then return (st, false)
  if isFixed w st i.v ∧ lo st i.v ≤ hi st i.w ∧ hi st i.w ≤ lo st i.v ∧ ¬(hi st i.v = 1) then
    let p := new_bound_i w st i i.w ((lo st i.v + 1) % 2 ^ w) (msub w (hi st i.w) 1) [vlo, vhi, whi]
    st := p.1
    if !p.2 then return (st, false)
  if ¬(hi st i.w = 0) ∧ hi st i.w ≤ lo st i.v ∧ lo st i.v ≤ hi st i.v then
    let p := new_bound_i w st i i.w ((lo st i.v + 1) % 2 ^ w) (msub w (hi st i.w) 1) [vlo, vhi, whi]
    st := p.1
    if !p.2 then return (st, false)
  if hi st i.w ≤ lo st i.v ∧ lo st i.w ≤ hi st i.w ∧ ¬isFreeVar st i.w then
    let p := new_bound_i w st i i.v ((lo st i.v + 1) % 2 ^ w) (msub w (hi st i.w) 1) [vlo, whi, wlo]
    st := p.1
    if !p.2 then return (st, false)
  if (lo st i.v + 1) % 2 ^ w = hi st i.w ∧ hi st i.w = 0 then
    let p := new_bound_i w st i i.v ((lo st i.v + 1) % 2 ^ w) (hi st i.v) [vlo, whi]
    st := p.1
    if !p.2 then return (st, false)
  if (lo st i.v + 1) % 2 ^ w = 0 then
    let p := new_bound_i w st i i.v ((lo st i.v + 1) % 2 ^ w) (hi st i.v) [vlo]
    st := p.1
    if !p.2 then return (st, false)
  if lo st i.w < hi st i.w ∧ hi st i.w ≤ lo st i.v then
    let p := new_bound_i w st i i.v 0 (hi st i.v) [vlo, vhi, whi, wlo]
    st := p.1
    if !p.2 then return (st, false)
  if isFixed w st i.w ∧ lo st i.w = 0 then
    return (conflictList st [wlo, whi], false)
  if isFixed w st i.v ∧ hi st i.v = 0 then
    return (conflictList st [vlo, vhi], false)
  if ¬isFreeVar st i.w ∧ (lo st i.w ≤ hi st i.w ∨ hi st i.w = 0) ∧ (lo st i.v < hi st i.v ∨ hi st i.v = 0) then
    let p := new_bound_i w st i i.v (lo st i.v) (msub w (hi st i.w) 1) [vlo, wlo, whi]
    st := p.1
    if !p.2 then return (st, false)
  if ¬isFreeVar st i.v ∧ (lo st i.w ≤ hi st i.w ∨ hi st i.w = 0) ∧ (lo st i.v < hi st i.v ∨ hi st i.v = 0) then
    let p := new_bound_i w st i i.w ((lo st i.v + 1) % 2 ^ w) (hi st i.w) [vlo, vhi, whi]
    st := p.1
    if !p.2 then return (st, false)
  if lo st i.w = 0 then
    let p := new_bound_i w st i i.w 1 (hi st i.w) [wlo]
    st := p.1
    if !p.2 then return (st, false)
  if (lo st i.v + 1) % 2 ^ w = 0 then
    let p := new_bound_i w st i i.v 0 (hi st i.v) [vhi]
    st := p.1
    if !p.2 then return (st, false)
  if lo st i.w < hi st i.w ∧ (hi st i.w ≤ hi st i.v ∨ hi st i.v = 0) then
    let p := new_bound_i w st i i.v (lo st i.v) (msub w (hi st i.w) 1) [vlo, vhi, wlo, whi]
    st := p.1
    if !p.2 then return (st, false)
  if ¬isFixed w st i.w ∧ (lo st i.v + 1) % 2 ^ w = hi st i.w ∧ (lo st i.v ≤ hi st i.v ∨ hi st i.v = 0) then
    let p := new_bound_i w st i i.w (lo st i.w) (msub w (hi st i.w) 1) [vlo, wlo, whi]
    st := p.1
    if !p.2 then return (st, false)
  if lo st i.w ≤ lo st i.v ∧ (lo st i.v < hi st i.v ∨ lo st i.v = 0) then
    let p := new_bound_i w st i i.w ((lo st i.v + 1) % 2 ^ w) (hi st i.w) [vlo, vhi, wlo, whi]
    st := p.1
    if !p.2 then return (st, false)
  if hi st i.w ≤ lo st i.v ∧ (lo st i.v < hi st i.v ∨ hi st i.v = 0) then
    let p := new_bound_i w st i i.w (lo st i.w) 0 [vlo, vhi, wlo, whi]
    st := p.1
    if !p.2 then return (st, false)
  if lo st i.w < hi st i.w ∧ hi st i.w ≤ lo st i.v ∧ (lo st i.v < hi st i.v ∨ hi st i.v = 0) then
    return (conflictList st [vlo, vhi, wlo, whi], false)
  if lo st i.w = 0 then
    let p := new_bound_i w st i i.w ((lo st i.w + 1) % 2 ^ w) (lo st i.w) [wlo]
    st := p.1
    if !p.2 then return (st, false)
  if isFixed w st i.v ∧ hi st i.w ≤ hi st i.v ∧ lo st i.w ≤ hi st i.w ∧ ¬isFreeVar st i.w then
    return (conflictList st [wlo, whi, vhi, vlo], false)
  if lo st i.w ≤ lo st i.v ∧ lo st i.v ≤ hi st i.v then
    let p := new_bound_i w st i i.w ((lo st i.v + 1) % 2 ^ w) (lo st i.v) [wlo, vhi, vlo]
    st := p.1
    if !p.2 then return (st, false)
  if hi st i.w ≤ hi st i.v ∧ lo st i.w ≤ hi st i.w ∧ ¬isFreeVar st i.w then
    let p := new_bound_i w st i i.v (lo st i.v) (msub w (hi st i.v) 1) [wlo, whi, vhi]
    st := p.1
    if !p.2 then return (st, false)
  if hi st i.w = 1 then
    let p := new_bound_i w st i i.w (lo st i.w) (msub w (hi st i.w) 1) [whi]
    st := p.1
    if !p.2 then return (st, false)
  if ¬(lo st i.v = 0) ∧ lo st i.v ≤ hi st i.w ∧ hi st i.w ≤ lo st i.v ∧ lo st i.v ≤ hi st i.v then
    let p := new_bound_i w st i i.w ((lo st i.v + 1) % 2 ^ w) (msub w (hi st i.w) 1) [whi, vhi, vlo]
    st := p.1
    if !p.2 then return (st, false)
  if ¬(hi st i.w = 0) ∧ isFixed w st i.v ∧ hi st i.w ≤ hi st i.v then
    let p := new_bound_i w st i i.w ((lo st i.v + 1) % 2 ^ w) (msub w (hi st i.v) 1) [whi, vhi, vlo]
    st := p.1
    if !p.2 then return (st, false)
  if ¬(lo st i.v ≤ hi st i.w) ∧ ¬(hi st i.w = 0) ∧ lo st i.v ≤ hi st i.v then
    let p := new_bound_i w st i i.w ((lo st i.v + 1) % 2 ^ w) (msub w (hi st i.w) 1) [whi, vhi, vlo]
    st := p.1
    if !p.2 then return (st, false)
  if ¬(lo st i.v ≤ lo st i.w) ∧ isFixed w st i.w then
    let p := new_bound_i w st i i.v ((lo st i.v + 1) % 2 ^ w) (msub w (hi st i.w) 1) [wlo, whi, vlo]
    st := p.1
    if !p.2 then return (st, false)
  if hi st i.w ≤ lo st i.v ∧ lo st i.w ≤ hi st i.w ∧ ¬isFreeVar st i.w then
    let p := new_bound_i w st i i.v ((lo st i.v + 1) % 2 ^ w) (msub w (hi st i.w) 1) [wlo, whi, vlo]
    st := p.1
    if !p.2 then return (st, false)
  if isFixed w st i.w ∧ hi st i.v = 0 ∧ lo st i.w ≤ lo st i.v then
    return (conflictList st [wlo, whi, vhi, vlo], false)
  if hi st i.v = 0 ∧ lo st i.w ≤ lo st i.v then
    let p := new_bound_i w st i i.w ((lo st i.v + 1) % 2 ^ w) (hi st i.v) [wlo, vhi, vlo]
    st := p.1
    if !p.2 then return (st, false)
  if hi st i.v = 0 ∧ ¬isFreeVar st i.v then
    let p := new_bound_i w st i i.v (lo st i.v) (msub w (hi st i.v) 1) [vhi]
    st := p.1
    if !p.2 then return (st, false)
  if isFixed w st i.w ∧ lo st i.w ≤ lo st i.v then
    let p := new_bound_i w st i i.v ((lo st i.v + 1) % 2 ^ w) (msub w (hi st i.w) 1) [wlo, whi, vlo]
    st := p.1
    if !p.2 then return (st, false)
  return (st, true)

/-- `propagate_non_strict_bounds(i)` (fixplex_def.h, lines 1276-1366): the
rule list for `v ≤ w`, manual patch first, then the generated block. -/
def propagate_non_strict_bounds (w : Nat) (s : Fixplex) (i : Ineq) : Fixplex × Bool := Id.run do
  let vlo := (getVar s i.v).loDep
  let vhi := (getVar s i.v).hiDep
  let wlo := (getVar s i.w).loDep
  let whi := (getVar s i.w).hiDep
  let mut st := s
  if lo st i.w < lo st i.v ∧ (lo st i.v < hi st i.v ∨ hi st i.v = 0) then
    let p := new_bound_i w st i i.w (lo st i.v) (hi st i.w) [vlo, vhi, wlo, whi]
    st := p.1
    if !p.2 then return (st, false)
  if ¬isFreeVar st i.w ∧ (lo st i.w ≤ hi st i.w ∨ hi st i.w = 0) ∧ (lo st i.v < hi st i.v ∨ hi st i.v = 0) then
    let p := new_bound_i w st i i.v (lo st i.v) (hi st i.w) [vlo, vhi, wlo, whi]
    st := p.1
    if !p.2 then return (st, false)
  if ¬isFreeVar st i.v ∧ (lo st i.w ≤ hi st i.w ∨ hi st i.w = 0) ∧ (lo st i.v < hi st i.v ∨ hi st i.v = 0) then
    let p := new_bound_i w st i i.w (lo st i.v) (hi st i.w) [vlo, vhi, whi]
    st := p.1
    if !p.2 then return (st, false)
  if hi st i.w < lo st i.w ∧ hi st i.w ≤ lo st i.v ∧ lo st i.v < hi st i.v then
    let p := new_bound_i w st i i.w (lo st i.w) 0 [vlo, vhi, wlo, whi]
    st := p.1
    if !p.2 then return (st, false)
  if lo st i.w < hi st i.w ∧ hi st i.w ≤ lo st i.v ∧ (lo st i.v < hi st i.v ∨ hi st i.v = 0) then
    return (conflictList st [vlo, vhi, wlo, whi], false)
  if ¬(hi st i.w ≤ lo st i.v) ∧ ¬isFixed w st i.v ∧ isFixed w st i.w ∧ hi st i.w = 1 ∧ ¬(hi st i.v = 0) then
    let p := new_bound_i w st i i.v 0 (hi st i.w) [vlo, wlo, vhi, whi]
    st := p.1
    if !p.2 then return (st, false)
  if ¬(hi st i.v ≤ lo st i.w) ∧ ¬isFixed w st i.v ∧ isFixed w st i.w ∧ lo st i.w ≤ lo st i.v ∧ lo st i.v ≤ lo st i.w then
    let p := new_bound_i w st i i.v 0 (hi st i.w) [vlo, wlo, vhi, whi]
    st := p.1
    if !p.2 then return (st, false)
  if ¬(hi st i.v ≤ hi st i.w) ∧ ¬(hi st i.w ≤ lo st i.v) ∧ lo st i.w ≤ lo st i.v then
    let p := new_bound_i w st i i.v 0 (hi st i.w) [wlo, vhi, vlo, whi]
    st := p.1
    if !p.2 then return (st, false)
  if ¬(lo st i.w ≤ lo st i.v) ∧ ¬(hi st i.v ≤ hi st i.w) ∧ isFixed w st i.w ∧ lo st i.w ≤ hi st i.w then
    let p := new_bound_i w st i i.v 0 (hi st i.w) [vlo, wlo, vhi, whi]
    st := p.1
    if !p.2 then return (st, false)
  if ¬(lo st i.v ≤ lo st i.w) ∧ hi st i.w = 1 ∧ lo st i.v ≤ hi st i.w then
    let p := new_bound_i w st i i.v 0 (hi st i.w) [wlo, vlo, whi]
    st := p.1
    if !p.2 then return (st, false)
  if isFixed w st i.w ∧ hi st i.w ≤ lo st i.v ∧ lo st i.w ≤ hi st i.w then
    let p := new_bound_i w st i i.v 0 (hi st i.w) [wlo, vlo, whi]
    st := p.1
    if !p.2 then return (st, false)
  if ¬(lo st i.v ≤ lo st i.w) ∧ lo st i.v ≤ hi st i.w ∧ hi st i.w ≤ lo st i.v then
    let p := new_bound_i w st i i.v 0 (hi st i.w) [wlo, vlo, whi]
    st := p.1
    if !p.2 then return (st, false)
  if ¬(lo st i.v ≤ hi st i.w) ∧ isFixed w st i.v ∧ lo st i.w ≤ hi st i.w then
    let p := new_bound_i w st i i.w (lo st i.v) 0 [vhi, vlo, wlo, whi]
    st := p.1
    if !p.2 then return (st, false)
  if ¬isFixed w st i.w ∧ ¬(hi st i.v ≤ lo st i.w) ∧ isFixed w st i.v ∧ hi st i.v ≤ hi st i.w ∧ hi st i.w ≤ hi st i.v then
    let p := new_bound_i w st i i.w (msub w (hi st i.w) 1) (hi st i.w) [vlo, wlo, vhi, whi]
    st := p.1
    if !p.2 then return (st, false)
  if ¬(lo st i.v ≤ lo st i.w) ∧ ¬(hi st i.w ≤ lo st i.v) ∧ hi st i.w ≤ hi st i.v then
    let p := new_bound_i w st i i.w (lo st i.v) (hi st i.w) [vlo, wlo, vhi, whi]
    st := p.1
    if !p.2 then return (st, false)
  if ¬(lo st i.v ≤ lo st i.w) ∧ isFixed w st i.v then
    let p := new_bound_i w st i i.w (lo st i.v) 0 [vhi, wlo, vlo]
    st := p.1
    if !p.2 then return (st, false)
  if isFixed w st i.v ∧ hi st i.w = 1 ∧ hi st i.w ≤ lo st i.v ∧ hi st i.v ≤ lo st i.w ∧ ¬(hi st i.v = 0) then
    let p := new_bound_i w st i i.w (lo st i.w) 0 [vhi, vlo, wlo, whi]
    st := p.1
    if !p.2 then return (st, false)
  if ¬(hi st i.v = 1) ∧ hi st i.w = 1 ∧ lo st i.v ≤ hi st i.w ∧ hi st i.w ≤ lo st i.v ∧ hi st i.v ≤ lo st i.w ∧ lo st i.v ≤ hi st i.v then
    let p := new_bound_i w st i i.w (lo st i.w) 0 [vhi, vlo, wlo, whi]
    st := p.1
    if !p.2 then return (st, false)
  if ¬(hi st i.w = 0) ∧ isFixed w st i.v ∧ hi st i.w ≤ lo st i.v ∧ hi st i.v ≤ lo st i.w ∧ lo st i.v ≤ hi st i.v then
    let p := new_bound_i w st i i.w (lo st i.w) 0 [vhi, vlo, wlo, whi]
    st := p.1
    if !p.2 then return (st, false)
  if ¬(hi st i.v ≤ hi st i.w) ∧ ¬(hi st i.w = 0) ∧ lo st i.v ≤ hi st i.w ∧ hi st i.w ≤ lo st i.v ∧ hi st i.v ≤ lo st i.w then
    let p := new_bound_i w st i i.w (lo st i.w) 0 [vhi, vlo, wlo, whi]
    st := p.1
    if !p.2 then return (st, false)
  if ¬(lo st i.v ≤ hi st i.w) ∧ ¬(lo st i.w ≤ lo st i.v) ∧ hi st i.w = 1 ∧ lo st i.w ≤ hi st i.v then
    let p := new_bound_i w st i i.w (lo st i.w) 0 [vhi, wlo, vlo, whi]
    st := p.1
    if !p.2 then return (st, false)
  if ¬(lo st i.v ≤ hi st i.w) ∧ ¬(lo st i.w ≤ lo st i.v) ∧ ¬(hi st i.w = 0) ∧ lo st i.w ≤ hi st i.v then
    let p := new_bound_i w st i i.w (lo st i.w) 0 [vhi, wlo, vlo, whi]
    st := p.1
    if !p.2 then return (st, false)
  if ¬(lo st i.w ≤ hi st i.w) ∧ isFixed w st i.v ∧ hi st i.w = 1 ∧ lo st i.w ≤ lo st i.v then
    let p := new_bound_i w st i i.w (lo st i.w) 0 [vlo, wlo, vhi, whi]
    st := p.1
    if !p.2 then return (st, false)
  if ¬(lo st i.w ≤ hi st i.w) ∧ ¬(hi st i.v ≤ lo st i.w) ∧ hi st i.w = 1 ∧ lo st i.w ≤ lo st i.v ∧ lo st i.v ≤ lo st i.w then
    let p := new_bound_i w st i i.w (lo st i.w) 0 [vlo, wlo, vhi, whi]
    st := p.1
    if !p.2 then return (st, false)
  if ¬(lo st i.w ≤ hi st i.w) ∧ ¬(hi st i.w = 0) ∧ isFixed w st i.v ∧ lo st i.w ≤ lo st i.v then
    let p := new_bound_i w st i i.w (lo st i.w) 0 [vlo, wlo, vhi, whi]
    st := p.1
    if !p.2 then return (st, false)
  if ¬(lo st i.w ≤ hi st i.w) ∧ ¬(hi st i.v ≤ lo st i.w) ∧ ¬(hi st i.w = 0) ∧ lo st i.w ≤ lo st i.v ∧ lo st i.v ≤ lo st i.w then
    let p := new_bound_i w st i i.w (lo st i.w) 0 [vlo, wlo, vhi, whi]
    st := p.1
    if !p.2 then return (st, false)
  if ¬(lo st i.w ≤ hi st i.w) ∧ ¬(hi st i.v = 1) ∧ hi st i.w = 1 ∧ lo st i.v ≤ hi st i.w ∧ hi st i.w ≤ lo st i.v then
    let p := new_bound_i w st i i.w (lo st i.w) 0 [vlo, wlo, vhi, whi]
    st := p.1
    if !p.2 then return (st, false)
  if ¬(lo st i.w ≤ hi st i.w) ∧ ¬(hi st i.v ≤ hi st i.w) ∧ ¬(hi st i.w = 0) ∧ lo st i.v ≤ hi st i.w ∧ hi st i.w ≤ lo st i.v then
    let p := new_bound_i w st i i.w (lo st i.w) 0 [vlo, wlo, vhi, whi]
    st := p.1
    if !p.2 then return (st, false)
  if ¬(lo st i.v ≤ hi st i.w) ∧ hi st i.v = 0 ∧ lo st i.w ≤ hi st i.v then
    let p := new_bound_i w st i i.w (lo st i.v) 0 [vhi, vlo, wlo, whi]
    st := p.1
    if !p.2 then return (st, false)
  if ¬(hi st i.w = 1) ∧ hi st i.v = 1 ∧ hi st i.w ≤ lo st i.v ∧ lo st i.w ≤ hi st i.v ∧ hi st i.v ≤ lo st i.w ∧ lo st i.w ≤ hi st i.w then
    let p := new_bound_i w st i i.v 0 (lo st i.w) [vhi, vlo, wlo, whi]
    st := p.1
    if !p.2 then return (st, false)
  if ¬(hi st i.w ≤ hi st i.v) ∧ hi st i.w ≤ lo st i.v ∧ lo st i.w ≤ hi st i.v then
    let p := new_bound_i w st i i.v 0 (msub w (hi st i.w) 1) [vhi, vlo, wlo, whi]
    st := p.1
    if !p.2 then return (st, false)
  if ¬(lo st i.v ≤ lo st i.w) ∧ hi st i.v = 0 then
    let p := new_bound_i w st i i.w (lo st i.v) 0 [vhi, wlo, vlo]
    st := p.1
    if !p.2 then return (st, false)
  if ¬(lo st i.v ≤ lo st i.w) ∧ ¬(hi st i.w = 0) ∧ hi st i.v = 0 ∧ lo st i.w ≤ hi st i.v then
    let p := new_bound_i w st i i.v (lo st i.v) (hi st i.w) [vlo, wlo, vhi, whi]
    st := p.1
    if !p.2 then return (st, false)
  if ¬(lo st i.v ≤ hi st i.v) ∧ isFixed w st i.w ∧ hi st i.v = 0 ∧ lo st i.w ≤ hi st i.w then
    let p := new_bound_i w st i i.v (lo st i.v) (hi st i.w) [vhi, vlo, wlo, whi]
    st := p.1
    if !p.2 then return (st, false)
  if ¬(lo st i.v ≤ hi st i.v) ∧ ¬(hi st i.w ≤ lo st i.v) ∧ hi st i.v = 0 ∧ lo st i.w ≤ lo st i.v then
    let p := new_bound_i w st i i.v (lo st i.w) (hi st i.w) [wlo, vhi, vlo, whi]
    st := p.1
    if !p.2 then return (st, false)
  if ¬(hi st i.v ≤ lo st i.w) ∧ hi st i.v ≤ hi st i.w ∧ hi st i.w ≤ lo st i.v then
    let p := new_bound_i w st i i.v 0 (hi st i.w) [vlo, wlo, vhi, whi]
    st := p.1
    if !p.2 then return (st, false)
  if ¬(lo st i.w ≤ hi st i.w) ∧ hi st i.w = 1 ∧ hi st i.v = 0 ∧ lo st i.w ≤ lo st i.v then
    let p := new_bound_i w st i i.w (lo st i.w) 0 [vlo, wlo, vhi, whi]
    st := p.1
    if !p.2 then return (st, false)
  if ¬(lo st i.v ≤ hi st i.w) ∧ ¬(hi st i.w = 0) ∧ hi st i.v = 0 ∧ lo st i.v ≤ lo st i.w then
    let p := new_bound_i w st i i.w (lo st i.w) 0 [wlo, vhi, vlo, whi]
    st := p.1
    if !p.2 then return (st, false)
  if ¬(lo st i.w ≤ lo st i.v) ∧ ¬(hi st i.w = 0) ∧ hi st i.v = 0 ∧ hi st i.w ≤ lo st i.v then
    let p := new_bound_i w st i i.w (lo st i.w) 0 [vlo, wlo, vhi, whi]
    st := p.1
    if !p.2 then return (st, false)
  return (st, true)

/-- `propagate_bounds(ineq)` (fixplex_def.h, lines 1368-1374). -/
def propagate_bounds_ineq (w : Nat) (s : Fixplex) (i : Ineq) : Fixplex × Bool :=
  if i.strict then propagate_strict_bounds w s i else propagate_non_strict_bounds w s i

/-- The checking loop of `ineqs_are_violated` over the pending set. -/
def iavLoop (w : Nat) : Fixplex → List Nat → Fixplex × Bool
  | t, [] => (t, false)
  | t, idx :: rest =>
    if t.ineqs.length ≤ idx then iavLoop w t rest
    else
      let p := propagate_bounds_ineq w t (t.ineqs.getD idx dIneq)
      if p.2 then iavLoop w p.1 rest else (p.1, true)

/-- `ineqs_are_violated()` (fixplex_def.h, lines 647-657): propagate each
pending inequality; report a violation as soon as one propagation conflicts. -/
def ineqs_are_violated (w : Nat) (s : Fixplex) : Fixplex × Bool :=
  iavLoop w s s.pending

/-- The iteration of `make_feasible` (fixplex_def.h, lines 127-163), with
explicit fuel standing for the cancellation hook; each `l_true` step consumes
one unit of the iteration budget, so fuel `maxIter + 2` is never exhausted
before the budget check fires. -/
def mfLoop (w maxIter : Nat) : Nat → Nat → Nat → Fixplex → Fixplex × Lbool
  | 0, _, _, s => (s, Lbool.lundef)
  | fuel + 1, numIterations, numRepeated, s =>
    let sel := select_var_to_fix w s
    if sel.2 = nullVar then
      let viol := ineqs_are_violated w sel.1
      if viol.2 then (viol.1, Lbool.lfalse)
      else
        let sat := ineqs_are_satisfied viol.1
        if sat.2 then (sat.1, Lbool.ltrue) else (sat.1, Lbool.lundef)
    else if maxIter < numIterations then (sel.1, Lbool.lundef)
    else
      let cb := check_blands_rule sel.1 sel.2 numRepeated
      let mv := make_var_feasible w cb.1 sel.2
      match mv.2 with
      | Lbool.ltrue => mfLoop w maxIter fuel (numIterations + 1) cb.2 mv.1
      | Lbool.lfalse =>
        (set_infeasible_base { mv.1 with toPatch := insertPatch mv.1.toPatch sel.2 } sel.2,
         Lbool.lfalse)
      | Lbool.lundef =>
        let s4 := { mv.1 with toPatch := insertPatch mv.1.toPatch sel.2 }
        let viol := ineqs_are_violated w s4
        if viol.2 then (viol.1, Lbool.lfalse) else (viol.1, Lbool.lundef)

/-- `make_feasible()` (fixplex_def.h, lines 127-163): reset the left basis
and Bland flag, then iterate.  `maxIter` stands for `m_max_iterations`; the
cancellation hook `m_limit.inc()` is modelled as never firing. -/
def make_feasible (w maxIter : Nat) (s : Fixplex) : Fixplex × Lbool :=
  mfLoop w maxIter (maxIter + 2) 0 0 { s with leftBasis := [], bland := false }

/-- `well_formed_row(r)` (fixplex_def.h, lines 1483-1501) as a boolean:
the base cross-links hold and the row sum is below the base coefficient
(the source throws otherwise). -/
def well_formed_row (w : Nat) (s : Fixplex) (r : Nat) : Bool :=
  let b := row2base s r
  base2row s b == r && isBase s b &&
    decide ((rowVars s r).foldl (fun acc v => (acc + value s v * s.mat r v) % 2 ^ w) 0
      < row2baseCoeff s r)

/-- `well_formed()` (fixplex_def.h, lines 1464-1481) as a boolean: every
live row is well formed and every non-base variable is in bounds. -/
def well_formed (w : Nat) (s : Fixplex) : Bool :=
  ((List.range s.numRows).all (fun r => row2base s r == nullVar || well_formed_row w s r)) &&
  ((List.range s.vars.length).all (fun v => isBase s v || inBounds s v))

/-- The claimed multiplier `b1` of `eliminate_var`, written as in the
specification: `b >> tz_b` in the lossless case, `b >> (tz_b - tz_c)`
otherwise, with `b` the base coefficient of `r_y`. -/
def elimB1 (w : Nat) (s : Fixplex) (ry c tzb : Nat) : Nat :=
  if tzb ≤ tz w c then row2baseCoeff s ry / 2 ^ tzb
  else row2baseCoeff s ry / 2 ^ (tzb - tz w c)

/-- The claimed multiplier `c1` of `eliminate_var`, written as in the
specification: `-(c >> (tz_c - tz_b))` in the lossless case, `-(c >> tz_c)`
otherwise. -/
def elimC1 (w c tzb : Nat) : Nat :=
  if tzb ≤ tz w c then msub w 0 (c / 2 ^ (tz w c - tzb))
  else msub w 0 (c / 2 ^ tz w c)

/-- The state of `eliminate_var` after scaling row `r_z` by `b1`. -/
def elimS1 (w : Nat) (s : Fixplex) (ry rz c tzb : Nat) : Fixplex :=
  { s with mat := fun r v => if r = rz then (s.mat r v * elimB1 w s ry c tzb) % 2 ^ w else s.mat r v }

/-- The state of `eliminate_var` after also adding `c1` times row `r_y` to
row `r_z`. -/
def elimS2 (w : Nat) (s : Fixplex) (ry rz c tzb : Nat) : Fixplex :=
  { elimS1 w s ry rz c tzb with mat := fun r v =>
      if r = rz then ((elimS1 w s ry rz c tzb).mat r v + elimC1 w c tzb * (elimS1 w s ry rz c tzb).mat ry v) % 2 ^ w
      else (elimS1 w s ry rz c tzb).mat r v }

/-- The state of `pivot` just before its elimination loop: the base swap in
`x`'s row, the base-value refresh of `y`, the reassignment of `x` and the
patch-queue insertion of `y`. -/
def pivotS6 (w : Nat) (s : Fixplex) (x y b newValue : Nat) : Fixplex :=
  let rx := base2row s x
  let a := row2baseCoeff s rx
  let oldY := value s y
  let s1 := setRowF s rx (fun ri =>
    { ri with base := y, value := (msub w ri.value ((b * oldY) % 2 ^ w) + a * newValue) % 2 ^ w, baseCoeff := b })
  let s2 := setVarF s1 y (fun vi => { vi with base2row := rx, isBase := true })
  let s3 := set_base_value w s2 y
  let s4 := setVarF s3 x (fun vi => { vi with isBase := false, value := newValue })
  let s5 := touch_var s4 x
  add_patch s5 y

/-- The free entries of a row: the variables with a free interval, paired
with their coefficients. -/
def freeEntriesOf (s : Fixplex) (r : Nat) : List (Nat × Nat) :=
  ((rowVars s r).filter (fun v => (getVar s v).intv.isFreeB)).map (fun v => (v, s.mat r v))

/-- The sum of the scaled intervals of a row's non-free variables, as in the
specification of `propagate_bounds(row)`. -/
def rowRangeNonFree (w : Nat) (s : Fixplex) (r : Nat) : MInterval :=
  (rowVars s r).foldl
    (fun acc v =>
      if (getVar s v).intv.isFreeB then acc
      else MInterval.add w acc (MInterval.smul w (getVar s v).intv (s.mat r v))) ⟨0, 1⟩

/-- The activity flag of inequality `idx`. -/
def activeAt (s : Fixplex) (idx : Nat) : Prop := (s.ineqs.getD idx dIneq).active = true

/-- Invariant: every active inequality is on the pending check list. -/
def ActPend (s : Fixplex) : Prop := ∀ idx, activeAt s idx → idx ∈ s.pending

/-- Monotonicity of the pending list, activity flags and touched marks
between two states. -/
def Grows (s t : Fixplex) : Prop :=
  (∀ idx, idx ∈ s.pending → idx ∈ t.pending) ∧
  (∀ idx, activeAt s idx → activeAt t idx) ∧
  (∀ v, s.touched v = true → t.touched v = true)

/-- The backtracking-relevant data of a variable: its interval and both
endpoint dependencies. -/
def intervalData (s : Fixplex) (u : Nat) : MInterval × Dep × Dep :=
  ((getVar s u).intv, (getVar s u).loDep, (getVar s u).hiDep)

/-- The persistent data of an inequality (everything but the transient
activity flag). -/
def ineqData (s : Fixplex) (idx : Nat) : Nat × Nat × Nat × Bool :=
  ((s.ineqs.getD idx dIneq).v, (s.ineqs.getD idx dIneq).w,
   (s.ineqs.getD idx dIneq).dep, (s.ineqs.getD idx dIneq).strict)

/-- A one-variable state for the push/set_bounds/pop round trip. -/
def sC1 : Fixplex := { vars := [dVar] }

/-- A state as left by `push(); add_row(0, ...)`: variable 0, which carried
the interval `[5, 10[` before the push, is the base of row 0; the trail holds
the scope marker and the `add_row` entry, and the row trail records the base
variable as `add_row` pushes it (fixplex_def.h, line 212). -/
def sC1b : Fixplex :=
  { vars := [{ value := 7, intv := ⟨5, 10⟩, isBase := true, base2row := 0 }, { value := 3 }],
    rows := [⟨0, 1, 7, true⟩],
    numRows := 1,
    mat := fun r v => if r = 0 ∧ (v = 0 ∨ v = 1) then 1 else 0,
    trail := [Trail.incLevel, Trail.addRow],
    rowTrail := [0] }

/-- A two-row state for exercising `eliminate_var`: row 0 has base variable 2
with base coefficient 6, row 1 has base variable 3 with base coefficient 4,
and variable 1 occurs in both rows. -/
def sC2 : Fixplex :=
  { vars := [dVar, dVar, dVar, dVar],
    rows := [⟨2, 6, 20, true⟩, ⟨3, 4, 32, true⟩],
    numRows := 2,
    mat := fun r v =>
      if r = 0 then (if v = 1 then 2 else if v = 2 then 6 else 0)
      else if r = 1 then (if v = 1 then 2 else if v = 3 then 4 else 0)
      else 0 }

/-- A state for exercising `pivot`: variable 0 is base of row 0 with
coefficient 1, variable 1 occurs in rows 0 (coefficient 1) and 1
(coefficient 2), variable 2 is base of row 1. -/
def sC3 : Fixplex :=
  { vars := [{ value := 1, isBase := true, base2row := 0 }, { value := 2 },
             { value := 3, isBase := true, base2row := 1 }],
    rows := [⟨0, 1, 2, true⟩, ⟨2, 1, 3, true⟩],
    numRows := 2,
    mat := fun r v =>
      if r = 0 then (if v = 0 then 1 else if v = 1 then 1 else 0)
      else if r = 1 then (if v = 1 then 2 else if v = 2 then 1 else 0)
      else 0 }

/-- A state for row bound propagation with one free variable: the row is
`2·x0 + x1 = 0` with `x1` fixed to the interval `[6, 7[`. -/
def sC4 : Fixplex :=
  { vars := [{ value := 0 }, { value := 6, intv := ⟨6, 7⟩ }],
    rows := [⟨0, 2, 6, true⟩],
    numRows := 1,
    mat := fun r v => if r = 0 then (if v = 0 then 2 else if v = 1 then 1 else 0) else 0 }

/-- A variant of `sC4` with no free variable: both variables bounded. -/
def sC4b : Fixplex :=
  { vars := [{ value := 5, intv := ⟨5, 8⟩ }, { value := 6, intv := ⟨6, 7⟩ }],
    rows := [⟨0, 2, 6, true⟩],
    numRows := 1,
    mat := fun r v => if r = 0 then (if v = 0 then 2 else if v = 1 then 1 else 0) else 0 }

/-- A state for the fixed-value collision path of `new_bound(row, ..)`:
variable 0 is free with value 42, variable 1 is fixed at `[42, 43[` with
value 42, and the fixed-value table maps 42 to variable 1 (row 0). -/
def sC6 : Fixplex :=
  { vars := [{ value := 42 }, { value := 42, intv := ⟨42, 43⟩ }],
    value2fixed := fun n => if n = 42 then some (1, 0) else none }

/-- Two `set_value` calls on a fresh solver: the scenario of the fixed-value
collision claim. -/
def sC6run : Fixplex := set_value 8 (set_value 8 initState 0 42 1) 1 42 2

/-- Two `set_bounds` calls with disjoint ranges on a fresh solver, leaving
the (non-base) variable 0 with an empty interval. -/
def sC7 : Fixplex := set_bounds 8 (set_bounds 8 initState 0 5 10 1) 0 20 30 2

/-- A non-integral row `2·x0 + 4·x1 + 4·x2 = 0` with `x0` fixed at `[3, 4[`
(value 3), `x1` and the base `x2` non-fixed. -/
def sC8 : Fixplex :=
  { vars := [{ value := 3, intv := ⟨3, 4⟩ }, { value := 1, intv := ⟨0, 10⟩ },
             { value := 7, isBase := true, base2row := 0 }],
    rows := [⟨2, 4, 5, false⟩],
    numRows := 1,
    mat := fun r v =>
      if r = 0 then (if v = 0 then 2 else if v = 1 then 4 else if v = 2 then 4 else 0)
      else 0 }

/-- A state with one untouched inequality between variables 0 and 1, pending
and inactive. -/
def sC9 : Fixplex :=
  { vars := [{ value := 1 }, { value := 2 }],
    var2ineqs := [[0], [0]],
    ineqs := [⟨0, 1, 5, false, false⟩],
    pending := [0] }

/-- The touch_var early-out scenario: an inequality on variable 0 is added
and activated by a first `update_value`, a second inequality on variable 0 is
then added (inactive), and a further `update_value` on the already-touched
variable 0 leaves it inactive. -/
def sC9run : Fixplex :=
  update_value 8 (add_ineq (update_value 8 (add_ineq { vars := [dVar, dVar, dVar] } 0 1 7 false) 0 1) 0 2 9 false) 0 1

theorem getD_set_self {α : Type} (l : List α) (i : Nat) (a d : α) (h : i < l.length) :
    (l.set i a).getD i d = a := by
  induction l generalizing i with
  | nil => simp at h
  | cons x xs ih =>
    cases i with
    | zero => rfl
    | succ n => exact ih n (Nat.lt_of_succ_lt_succ h)

theorem getD_set_ne {α : Type} (l : List α) (i j : Nat) (a d : α) (h : i ≠ j) :
    (l.set i a).getD j d = l.getD j d := by
  induction l generalizing i j with
  | nil => rfl
  | cons x xs ih =>
    cases i with
    | zero =>
      cases j with
      | zero => exact absurd rfl h
      | succ m => rfl
    | succ n =>
      cases j with
      | zero => rfl
      | succ m => exact ih n m (fun hh => h (by rw [hh]))

theorem getD_append_default {α : Type} (l l2 : List α) (d : α) (u : Nat)
    (h : ∀ x ∈ l2, x = d) : (l ++ l2).getD u d = l.getD u d := by
  induction l generalizing u with
  | nil =>
    simp only [List.nil_append, List.getD_nil]
    induction l2 generalizing u with
    | nil => rfl
    | cons y ys ih =>
      cases u with
      | zero => exact h y (List.mem_cons_self _ _)
      | succ n => exact ih (fun x hx => h x (List.mem_cons_of_mem _ hx)) n
  | cons x xs ih =>
    cases u with
    | zero => rfl
    | succ n => exact ih n

theorem getVar_setVarF (s : Fixplex) (v : Nat) (f : VarInfo → VarInfo) (u : Nat) :
    getVar (setVarF s v f) u =
      if u = v ∧ v < s.vars.length then f (getVar s v) else getVar s u := by
  unfold getVar setVarF
  by_cases h1 : v < s.vars.length
  · by_cases h2 : u = v
    · subst h2
      rw [getD_set_self _ _ _ _ h1]
      simp [h1]
    · rw [getD_set_ne _ _ _ _ _ (fun hh => h2 hh.symm)]
      simp [h2]
  · rw [List.set_eq_of_length_le (Nat.le_of_not_lt h1)]
    simp [h1]

theorem getRow_setRowF (s : Fixplex) (r : Nat) (f : RowInfo → RowInfo) (q : Nat) :
    getRow (setRowF s r f) q =
      if q = r ∧ r < s.rows.length then f (getRow s r) else getRow s q := by
  unfold getRow setRowF
  by_cases h1 : r < s.rows.length
  · by_cases h2 : q = r
    · subst h2
      rw [getD_set_self _ _ _ _ h1]
      simp [h1]
    · rw [getD_set_ne _ _ _ _ _ (fun hh => h2 hh.symm)]
      simp [h2]
  · rw [List.set_eq_of_length_le (Nat.le_of_not_lt h1)]
    simp [h1]

theorem getVar_ensure_var (s : Fixplex) (v u : Nat) :
    getVar (ensure_var s v) u = getVar s u := by
  unfold getVar ensure_var
  exact getD_append_default _ _ _ _ (fun x hx => (List.eq_of_mem_replicate hx))

theorem popAux_zero_n (w f : Nat) (s : Fixplex) : popAux w f 0 s = s := by
  cases f <;> rfl


theorem touchFold_pres (L : List Nat) : ∀ t : Fixplex,
    (touchFold t L).vars = t.vars ∧ (touchFold t L).rows = t.rows ∧
    (touchFold t L).numRows = t.numRows ∧ (touchFold t L).mat = t.mat ∧
    (touchFold t L).trail = t.trail ∧ (touchFold t L).stashed = t.stashed ∧
    (touchFold t L).toPatch = t.toPatch ∧ (touchFold t L).touched = t.touched ∧
    (touchFold t L).var2ineqs = t.var2ineqs ∧
    (touchFold t L).ineqs.length = t.ineqs.length ∧
    (∀ idx, ineqData (touchFold t L) idx = ineqData t idx) := by
  induction L with
  | nil => exact fun t => ⟨rfl, rfl, rfl, rfl, rfl, rfl, rfl, rfl, rfl, rfl, fun _ => rfl⟩
  | cons a L ih =>
    intro t
    by_cases hA : (t.ineqs.getD a dIneq).active = true
    · have hEq : touchFold t (a :: L) = touchFold t L := by
        simp only [touchFold]
        exact if_pos hA
      rw [hEq]
      exact ih t
    · have hEq : touchFold t (a :: L) =
        touchFold
          { t with ineqs := t.ineqs.set a { t.ineqs.getD a dIneq with active := true },
                   pending := t.pending ++ [a] } L := by
        simp only [touchFold]
        exact if_neg hA
      rw [hEq]
      obtain ⟨h1, h2, h3, h4, h5, h6, h7, h8, h9, h10, h11⟩ := ih
        { t with ineqs := t.ineqs.set a { t.ineqs.getD a dIneq with active := true },
                 pending := t.pending ++ [a] }
      refine ⟨h1, h2, h3, h4, h5, h6, h7, h8, h9, ?_, ?_⟩
      · rw [h10]; exact List.length_set ..
      · intro idx
        rw [h11 idx]
        unfold ineqData
        by_cases hij : idx = a
        · subst hij
          by_cases hlt : idx < t.ineqs.length
          · simp only [getD_set_self _ _ _ _ hlt]
          · rw [List.set_eq_of_length_le (Nat.le_of_not_lt hlt)]
        · simp only [getD_set_ne _ _ _ _ _ (fun hh => hij hh.symm)]

theorem touch_var_pres (s : Fixplex) (v : Nat) :
    (touch_var s v).vars = s.vars ∧ (touch_var s v).rows = s.rows ∧
    (touch_var s v).numRows = s.numRows ∧ (touch_var s v).mat = s.mat ∧
    (touch_var s v).trail = s.trail ∧ (touch_var s v).stashed = s.stashed ∧
    (touch_var s v).toPatch = s.toPatch ∧ (touch_var s v).var2ineqs = s.var2ineqs ∧
    (touch_var s v).ineqs.length = s.ineqs.length ∧
    (∀ idx, ineqData (touch_var s v) idx = ineqData s idx) := by
  unfold touch_var
  by_cases h1 : s.var2ineqs.length ≤ v
  · rw [if_pos h1]
    exact ⟨rfl, rfl, rfl, rfl, rfl, rfl, rfl, rfl, rfl, fun _ => rfl⟩
  · rw [if_neg h1]
    by_cases h2 : s.touched v = true
    · rw [if_pos h2]
      exact ⟨rfl, rfl, rfl, rfl, rfl, rfl, rfl, rfl, rfl, fun _ => rfl⟩
    · rw [if_neg h2]
      obtain ⟨p1, p2, p3, p4, p5, p6, p7, _, p9, p10, p11⟩ := touchFold_pres _ _
      exact ⟨p1, p2, p3, p4, p5, p6, p7, p9, p10, p11⟩

theorem touch_var_touched_other (s : Fixplex) (v u : Nat) (h : u ≠ v) :
    (touch_var s v).touched u = s.touched u := by
  unfold touch_var
  by_cases h1 : s.var2ineqs.length ≤ v
  · rw [if_pos h1]
  · rw [if_neg h1]
    by_cases h2 : s.touched v = true
    · rw [if_pos h2]
    · rw [if_neg h2]
      rw [(touchFold_pres _ _).2.2.2.2.2.2.2.1]
      simp [h]

theorem add_patch_pres (s : Fixplex) (v : Nat) :
    (add_patch s v).vars = s.vars ∧ (add_patch s v).rows = s.rows ∧
    (add_patch s v).numRows = s.numRows ∧ (add_patch s v).mat = s.mat ∧
    (add_patch s v).trail = s.trail ∧ (add_patch s v).stashed = s.stashed ∧
    (add_patch s v).touched = s.touched ∧ (add_patch s v).var2ineqs = s.var2ineqs ∧
    (add_patch s v).pending = s.pending ∧ (add_patch s v).ineqs = s.ineqs := by
  unfold add_patch
  split <;> exact ⟨rfl, rfl, rfl, rfl, rfl, rfl, rfl, rfl, rfl, rfl⟩


theorem sbvAux (s : Fixplex) (x r0 : Nat) (f : VarInfo → VarInfo)
    (hf : ∀ vi, (f vi).intv = vi.intv ∧ (f vi).loDep = vi.loDep ∧ (f vi).hiDep = vi.hiDep)
    (g : RowInfo → RowInfo)
    (hg : ∀ ri, (g ri).value = ri.value ∧ (g ri).base = ri.base ∧ (g ri).baseCoeff = ri.baseCoeff) :
    (∀ u, intervalData (setRowF (touch_var (setVarF s x f) x) r0 g) u = intervalData s u) ∧
    (setRowF (touch_var (setVarF s x f) x) r0 g).mat = s.mat ∧
    (setRowF (touch_var (setVarF s x f) x) r0 g).numRows = s.numRows ∧
    (setRowF (touch_var (setVarF s x f) x) r0 g).trail = s.trail ∧
    (setRowF (touch_var (setVarF s x f) x) r0 g).stashed = s.stashed ∧
    (setRowF (touch_var (setVarF s x f) x) r0 g).toPatch = s.toPatch ∧
    (setRowF (touch_var (setVarF s x f) x) r0 g).var2ineqs = s.var2ineqs ∧
    (setRowF (touch_var (setVarF s x f) x) r0 g).ineqs.length = s.ineqs.length ∧
    (∀ idx, ineqData (setRowF (touch_var (setVarF s x f) x) r0 g) idx = ineqData s idx) ∧
    (∀ q, row2value (setRowF (touch_var (setVarF s x f) x) r0 g) q = row2value s q) ∧
    (∀ q, row2base (setRowF (touch_var (setVarF s x f) x) r0 g) q = row2base s q) ∧
    (∀ q, row2baseCoeff (setRowF (touch_var (setVarF s x f) x) r0 g) q = row2baseCoeff s q) ∧
    (∀ u, u ≠ x → (setRowF (touch_var (setVarF s x f) x) r0 g).touched u = s.touched u) := by
  obtain ⟨t1, t2, t3, t4, t5, t6, t7, t8, t9, t10⟩ := touch_var_pres (setVarF s x f) x
  have hgv : ∀ p, getVar (touch_var (setVarF s x f) x) p = getVar (setVarF s x f) p := by
    intro p
    unfold getVar
    rw [t1]
  have hgrw : ∀ p, getRow (touch_var (setVarF s x f) x) p = getRow s p := by
    intro p
    unfold getRow
    rw [t2]
    rfl
  have hrl : (touch_var (setVarF s x f) x).rows.length = s.rows.length := by
    rw [t2]
    rfl
  have hRows : ∀ q, getRow (setRowF (touch_var (setVarF s x f) x) r0 g) q
      = if q = r0 ∧ r0 < s.rows.length then g (getRow s r0) else getRow s q := by
    intro q
    rw [getRow_setRowF, hrl]
    by_cases hc : q = r0 ∧ r0 < s.rows.length
    · rw [if_pos hc, if_pos hc, hgrw]
    · rw [if_neg hc, if_neg hc, hgrw]
  refine ⟨?_, t4, t3, t5, t6, t7, t8, t9, t10, ?_, ?_, ?_, ?_⟩
  · intro u
    show intervalData (touch_var (setVarF s x f) x) u = intervalData s u
    unfold intervalData
    rw [hgv, getVar_setVarF]
    by_cases hc : u = x ∧ x < s.vars.length
    · rw [if_pos hc, (hf _).1, (hf _).2.1, (hf _).2.2, hc.1]
    · rw [if_neg hc]
  · intro q
    unfold row2value
    rw [hRows]
    by_cases hc : q = r0 ∧ r0 < s.rows.length
    · rw [if_pos hc, (hg _).1, hc.1]
    · rw [if_neg hc]
  · intro q
    unfold row2base
    rw [hRows]
    by_cases hc : q = r0 ∧ r0 < s.rows.length
    · rw [if_pos hc, (hg _).2.1, hc.1]
    · rw [if_neg hc]
  · intro q
    unfold row2baseCoeff
    rw [hRows]
    by_cases hc : q = r0 ∧ r0 < s.rows.length
    · rw [if_pos hc, (hg _).2.2, hc.1]
    · rw [if_neg hc]
  · intro u hu
    show (touch_var (setVarF s x f) x).touched u = s.touched u
    rw [touch_var_touched_other _ _ _ hu]
    rfl



theorem set_base_value_pres (w : Nat) (s : Fixplex) (x : Nat) :
    (∀ u, intervalData (set_base_value w s x) u = intervalData s u) ∧
    (set_base_value w s x).mat = s.mat ∧ (set_base_value w s x).numRows = s.numRows ∧
    (set_base_value w s x).trail = s.trail ∧ (set_base_value w s x).stashed = s.stashed ∧
    (set_base_value w s x).toPatch = s.toPatch ∧
    (set_base_value w s x).var2ineqs = s.var2ineqs ∧
    (set_base_value w s x).ineqs.length = s.ineqs.length ∧
    (∀ idx, ineqData (set_base_value w s x) idx = ineqData s idx) ∧
    (∀ q, row2value (set_base_value w s x) q = row2value s q) ∧
    (∀ q, row2base (set_base_value w s x) q = row2base s q) ∧
    (∀ q, row2baseCoeff (set_base_value w s x) q = row2baseCoeff s q) ∧
    (∀ u, u ≠ x → (set_base_value w s x).touched u = s.touched u) := by
  simp only [set_base_value]
  have base := sbvAux s x (base2row s x)
    (fun vi => { vi with value := solve_for w (row2value s (base2row s x)) (row2baseCoeff s (base2row s x)) })
    (fun _ => ⟨rfl, rfl, rfl⟩)
    (fun ri => { ri with integral := isSolved w (touch_var (setVarF s x (fun vi => { vi with value := solve_for w (row2value s (base2row s x)) (row2baseCoeff s (base2row s x)) })) x) (base2row s x) })
    (fun _ => ⟨rfl, rfl, rfl⟩)
  obtain ⟨a1, a2, a3, a4, a5, a6, a7, a8, a9, a10, a11, a12, a13⟩ := base
  refine ⟨?_, ?_, ?_, ?_, ?_, ?_, ?_, ?_, ?_, ?_, ?_, ?_, ?_⟩
  · intro u
    split
    · exact a1 u
    · split
      · exact a1 u
      · exact a1 u
  · split
    · exact a2
    · split
      · exact a2
      · exact a2
  · split
    · exact a3
    · split
      · exact a3
      · exact a3
  · split
    · exact a4
    · split
      · exact a4
      · exact a4
  · split
    · exact a5
    · split
      · exact a5
      · exact a5
  · split
    · exact a6
    · split
      · exact a6
      · exact a6
  · split
    · exact a7
    · split
      · exact a7
      · exact a7
  · split
    · exact a8
    · split
      · exact a8
      · exact a8
  · intro idx
    split
    · exact a9 idx
    · split
      · exact a9 idx
      · exact a9 idx
  · intro q
    split
    · exact a10 q
    · split
      · exact a10 q
      · exact a10 q
  · intro q
    split
    · exact a11 q
    · split
      · exact a11 q
      · exact a11 q
  · intro q
    split
    · exact a12 q
    · split
      · exact a12 q
      · exact a12 q
  · intro u hu
    split
    · exact a13 u hu
    · split
      · exact a13 u hu
      · exact a13 u hu

theorem intervalData_congr {a b : Fixplex} (h : a.vars = b.vars) :
    ∀ u, intervalData a u = intervalData b u := by
  intro u
  unfold intervalData getVar
  rw [h]

theorem ineqData_congr {a b : Fixplex} (h : a.ineqs = b.ineqs) :
    ∀ idx, ineqData a idx = ineqData b idx := by
  intro idx
  unfold ineqData
  rw [h]

theorem intervalData_setVarF (s : Fixplex) (v : Nat) (f : VarInfo → VarInfo)
    (hf : ∀ vi, (f vi).intv = vi.intv ∧ (f vi).loDep = vi.loDep ∧ (f vi).hiDep = vi.hiDep)
    (u : Nat) : intervalData (setVarF s v f) u = intervalData s u := by
  unfold intervalData
  rw [getVar_setVarF]
  by_cases hc : u = v ∧ v < s.vars.length
  · rw [if_pos hc, (hf _).1, (hf _).2.1, (hf _).2.2, hc.1]
  · rw [if_neg hc]

theorem uvFold_pres (w v delta : Nat) (L : List Nat) : ∀ t : Fixplex,
    (∀ u, intervalData (uvFold w v delta t L) u = intervalData t u) ∧
    (uvFold w v delta t L).mat = t.mat ∧ (uvFold w v delta t L).numRows = t.numRows ∧
    (uvFold w v delta t L).trail = t.trail ∧ (uvFold w v delta t L).stashed = t.stashed ∧
    (uvFold w v delta t L).var2ineqs = t.var2ineqs ∧
    (uvFold w v delta t L).ineqs.length = t.ineqs.length ∧
    (∀ idx, ineqData (uvFold w v delta t L) idx = ineqData t idx) := by
  induction L with
  | nil => exact fun t => ⟨fun _ => rfl, rfl, rfl, rfl, rfl, rfl, rfl, fun _ => rfl⟩
  | cons r L ih =>
    intro t
    simp only [uvFold]
    obtain ⟨b1, b2, b3, b4, b5, b6, b7, b8, b9, b10, b11, b12, b13⟩ :=
      set_base_value_pres w
        (setRowF t r (fun ri => { ri with value := (ri.value + delta * t.mat r v) % 2 ^ w }))
        (row2base (setRowF t r (fun ri => { ri with value := (ri.value + delta * t.mat r v) % 2 ^ w })) r)
    obtain ⟨c1, c2, c3, c4, c5, c6, c7, c8, c9, c10⟩ :=
      add_patch_pres
        (set_base_value w
          (setRowF t r (fun ri => { ri with value := (ri.value + delta * t.mat r v) % 2 ^ w }))
          (row2base (setRowF t r (fun ri => { ri with value := (ri.value + delta * t.mat r v) % 2 ^ w })) r))
        (row2base (setRowF t r (fun ri => { ri with value := (ri.value + delta * t.mat r v) % 2 ^ w })) r)
    obtain ⟨d1, d2, d3, d4, d5, d6, d7, d8⟩ := ih
      (add_patch
        (set_base_value w
          (setRowF t r (fun ri => { ri with value := (ri.value + delta * t.mat r v) % 2 ^ w }))
          (row2base (setRowF t r (fun ri => { ri with value := (ri.value + delta * t.mat r v) % 2 ^ w })) r))
        (row2base (setRowF t r (fun ri => { ri with value := (ri.value + delta * t.mat r v) % 2 ^ w })) r))
    refine ⟨?_, ?_, ?_, ?_, ?_, ?_, ?_, ?_⟩
    · intro u
      exact (d1 u).trans ((intervalData_congr c1 u).trans (b1 u))
    · exact d2.trans (c4.trans b2)
    · exact d3.trans (c3.trans b3)
    · exact d4.trans (c5.trans b4)
    · exact d5.trans (c6.trans b5)
    · exact d6.trans (c8.trans b7)
    · exact d7.trans ((congrArg List.length c10).trans b8)
    · intro idx
      exact (d8 idx).trans ((ineqData_congr c10 idx).trans (b9 idx))

theorem update_value_pres (w : Nat) (s : Fixplex) (v delta : Nat) :
    (∀ u, intervalData (update_value w s v delta) u = intervalData s u) ∧
    (update_value w s v delta).mat = s.mat ∧
    (update_value w s v delta).numRows = s.numRows ∧
    (update_value w s v delta).trail = s.trail ∧
    (update_value w s v delta).stashed = s.stashed ∧
    (update_value w s v delta).var2ineqs = s.var2ineqs ∧
    (update_value w s v delta).ineqs.length = s.ineqs.length ∧
    (∀ idx, ineqData (update_value w s v delta) idx = ineqData s idx) := by
  unfold update_value
  by_cases hd : delta = 0
  · rw [if_pos hd]
    exact ⟨fun _ => rfl, rfl, rfl, rfl, rfl, rfl, rfl, fun _ => rfl⟩
  · rw [if_neg hd]
    obtain ⟨t1, t2, t3, t4, t5, t6, t7, t8, t9, t10⟩ :=
      touch_var_pres (setVarF s v (fun vi => { vi with value := (vi.value + delta) % 2 ^ w })) v
    obtain ⟨d1, d2, d3, d4, d5, d6, d7, d8⟩ :=
      uvFold_pres w v delta
        (colRows (touch_var (setVarF s v (fun vi => { vi with value := (vi.value + delta) % 2 ^ w })) v) v)
        (touch_var (setVarF s v (fun vi => { vi with value := (vi.value + delta) % 2 ^ w })) v)
    refine ⟨?_, ?_, ?_, ?_, ?_, ?_, ?_, ?_⟩
    · intro u
      exact (d1 u).trans ((intervalData_congr t1 u).trans
        (intervalData_setVarF s v (fun vi => { vi with value := (vi.value + delta) % 2 ^ w })
          (fun _ => ⟨rfl, rfl, rfl⟩) u))
    · exact d2.trans t4
    · exact d3.trans t3
    · exact d4.trans t5
    · exact d5.trans t6
    · exact d6.trans t8
    · exact d7.trans t9
    · intro idx
      exact (d8 idx).trans (t10 idx)

theorem svf_len (t : Fixplex) (v : Nat) (f : VarInfo → VarInfo) :
    (setVarF t v f).vars.length = t.vars.length := List.length_set ..

theorem svf_ne (t : Fixplex) (v : Nat) (f : VarInfo → VarInfo) (u : Nat) (h : u ≠ v) :
    getVar (setVarF t v f) u = getVar t u := by
  rw [getVar_setVarF]
  exact if_neg (fun hc => h hc.1)

theorem svf_val (t : Fixplex) (v : Nat) (f : VarInfo → VarInfo)
    (hval : ∀ vi, (f vi).value = vi.value) (u : Nat) :
    value (setVarF t v f) u = value t u := by
  unfold value
  rw [getVar_setVarF]
  by_cases hc : u = v ∧ v < t.vars.length
  · rw [if_pos hc, hval, hc.1]
  · rw [if_neg hc]

theorem update_bounds_pres (w : Nat) (s : Fixplex) (v l h : Nat) (dep : Dep) :
    (update_bounds w s v l h dep).trail = s.trail ++ [Trail.setBound] ∧
    (update_bounds w s v l h dep).stashed =
      s.stashed ++ [⟨v, (getVar s v).intv, (getVar s v).loDep, (getVar s v).hiDep⟩] ∧
    (update_bounds w s v l h dep).mat = s.mat ∧
    (update_bounds w s v l h dep).rows = s.rows ∧
    (update_bounds w s v l h dep).numRows = s.numRows ∧
    (update_bounds w s v l h dep).ineqs = s.ineqs ∧
    (update_bounds w s v l h dep).pending = s.pending ∧
    (update_bounds w s v l h dep).touched = s.touched ∧
    (update_bounds w s v l h dep).var2ineqs = s.var2ineqs ∧
    (update_bounds w s v l h dep).value2fixed = s.value2fixed ∧
    (update_bounds w s v l h dep).varEqs = s.varEqs ∧
    (update_bounds w s v l h dep).vars.length = s.vars.length ∧
    (∀ u, u ≠ v → getVar (update_bounds w s v l h dep) u = getVar s u) ∧
    (∀ u, value (update_bounds w s v l h dep) u = value s u) := by
  simp only [update_bounds]
  split_ifs
  · refine ⟨rfl, rfl, rfl, rfl, rfl, rfl, rfl, rfl, rfl, rfl, rfl, ?_, ?_, ?_⟩
    · exact (svf_len _ _ _).trans ((svf_len _ _ _).trans (svf_len _ _ _))
    · intro u hu
      exact (svf_ne _ _ _ _ hu).trans ((svf_ne _ _ _ _ hu).trans (svf_ne _ _ _ _ hu))
    · intro u
      exact (svf_val _ _ (fun vi => { vi with hiDep := dep }) (fun _ => rfl) u).trans
        ((svf_val _ _ (fun vi => { vi with loDep := dep }) (fun _ => rfl) u).trans
          (svf_val _ _ (fun vi => { vi with intv := MInterval.inter (getVar s v).intv l h })
            (fun _ => rfl) u))
  · refine ⟨rfl, rfl, rfl, rfl, rfl, rfl, rfl, rfl, rfl, rfl, rfl, ?_, ?_, ?_⟩
    · exact (svf_len _ _ _).trans (svf_len _ _ _)
    · intro u hu
      exact (svf_ne _ _ _ _ hu).trans (svf_ne _ _ _ _ hu)
    · intro u
      exact (svf_val _ _ (fun vi => { vi with hiDep := dep }) (fun _ => rfl) u).trans
        (svf_val _ _ (fun vi => { vi with intv := MInterval.inter (getVar s v).intv l h })
          (fun _ => rfl) u)
  · refine ⟨rfl, rfl, rfl, rfl, rfl, rfl, rfl, rfl, rfl, rfl, rfl, ?_, ?_, ?_⟩
    · exact (svf_len _ _ _).trans (svf_len _ _ _)
    · intro u hu
      exact (svf_ne _ _ _ _ hu).trans (svf_ne _ _ _ _ hu)
    · intro u
      exact (svf_val _ _ (fun vi => { vi with loDep := dep }) (fun _ => rfl) u).trans
        (svf_val _ _ (fun vi => { vi with intv := MInterval.inter (getVar s v).intv l h })
          (fun _ => rfl) u)
  · refine ⟨rfl, rfl, rfl, rfl, rfl, rfl, rfl, rfl, rfl, rfl, rfl, ?_, ?_, ?_⟩
    · exact svf_len _ _ _
    · intro u hu
      exact svf_ne _ _ _ _ hu
    · intro u
      exact svf_val _ _ (fun vi => { vi with intv := MInterval.inter (getVar s v).intv l h })
        (fun _ => rfl) u

theorem vars_len_set_base_value (w : Nat) (t : Fixplex) (x : Nat) :
    (set_base_value w t x).vars.length = t.vars.length := by
  simp only [set_base_value]
  have h1 := (touch_var_pres (setVarF t x (fun vi =>
    { vi with value := solve_for w (row2value t (base2row t x)) (row2baseCoeff t (base2row t x)) })) x).1
  split_ifs <;> exact (congrArg List.length h1).trans (svf_len _ _ _)

theorem vars_len_uvFold (w v delta : Nat) (L : List Nat) : ∀ t : Fixplex,
    (uvFold w v delta t L).vars.length = t.vars.length := by
  induction L with
  | nil => exact fun _ => rfl
  | cons r L ih =>
    intro t
    simp only [uvFold]
    refine (ih _).trans ?_
    refine (congrArg List.length
      (add_patch_pres
        (set_base_value w
          (setRowF t r (fun ri => { ri with value := (ri.value + delta * t.mat r v) % 2 ^ w }))
          (row2base (setRowF t r (fun ri => { ri with value := (ri.value + delta * t.mat r v) % 2 ^ w })) r))
        (row2base (setRowF t r (fun ri => { ri with value := (ri.value + delta * t.mat r v) % 2 ^ w })) r)).1).trans ?_
    exact vars_len_set_base_value w _ _

theorem vars_len_update_value (w : Nat) (s : Fixplex) (v delta : Nat) :
    (update_value w s v delta).vars.length = s.vars.length := by
  unfold update_value
  by_cases hd : delta = 0
  · rw [if_pos hd]
  · rw [if_neg hd]
    refine (vars_len_uvFold w v delta _ _).trans ?_
    refine (congrArg List.length (touch_var_pres (setVarF s v (fun vi =>
      { vi with value := (vi.value + delta) % 2 ^ w })) v).1).trans ?_
    exact svf_len _ _ _

theorem popAux_setBound (w f n : Nat) (t : Fixplex) (hn : n ≠ 0)
    (hl : t.trail.getLast? = some Trail.setBound) :
    popAux w (f + 1) n t =
      popAux w f n { restore_bound t with trail := (restore_bound t).trail.dropLast } := by
  cases n with
  | zero => exact absurd rfl hn
  | succ m => simp only [popAux, hl]

theorem popAux_incLevel (w f n : Nat) (t : Fixplex) (hn : n ≠ 0)
    (hl : t.trail.getLast? = some Trail.incLevel) :
    popAux w (f + 1) n t = popAux w f (n - 1) { t with trail := t.trail.dropLast } := by
  cases n with
  | zero => exact absurd rfl hn
  | succ m => simp only [popAux, hl]

theorem getLastD_concat2 {α : Type} (l : List α) (a d : α) : (l ++ [a]).getLastD d = a := by
  rw [List.getLastD_eq_getLast?, List.getLast?_concat]
  rfl

theorem pop_one_setBound (w : Nat) (s t1 : Fixplex) (v u : Nat)
    (htr : t1.trail = s.trail ++ [Trail.incLevel, Trail.setBound])
    (hst : t1.stashed = s.stashed ++ [⟨v, (getVar s v).intv, (getVar s v).loDep, (getVar s v).hiDep⟩])
    (hmat : t1.mat = s.mat)
    (hineq : ∀ idx, ineqData t1 idx = ineqData s idx)
    (hil : t1.ineqs.length = s.ineqs.length)
    (hidata : ∀ u2, u2 ≠ v → intervalData t1 u2 = intervalData s u2)
    (hlen : v < t1.vars.length) :
    intervalData (pop w t1 1) u = intervalData s u ∧ (pop w t1 1).mat = s.mat ∧
    (pop w t1 1).ineqs.length = s.ineqs.length ∧
    (∀ idx, ineqData (pop w t1 1) idx = ineqData s idx) := by
  have hassoc : s.trail ++ [Trail.incLevel, Trail.setBound]
      = (s.trail ++ [Trail.incLevel]) ++ [Trail.setBound] := by simp
  have hgl : t1.trail.getLast? = some Trail.setBound := by
    rw [htr, hassoc]
    exact List.getLast?_concat _
  have hlen1 : t1.trail.length = s.trail.length + 1 + 1 := by
    rw [htr]
    simp
  have hb : t1.stashed.getLastD dStash
      = ⟨v, (getVar s v).intv, (getVar s v).loDep, (getVar s v).hiDep⟩ := by
    rw [hst]
    exact getLastD_concat2 _ _ _
  have hrb : ∀ u2, getVar (restore_bound t1) u2
      = getVar (setVarF t1 v (fun vi => { vi with intv := (getVar s v).intv, loDep := (getVar s v).loDep, hiDep := (getVar s v).hiDep })) u2 := by
    intro u2
    unfold restore_bound
    rw [hb]
    rfl
  have hpop : pop w t1 1
      = { { restore_bound t1 with trail := (restore_bound t1).trail.dropLast } with
          trail := (restore_bound t1).trail.dropLast.dropLast } := by
    show popAux w t1.trail.length 1 t1 = _
    rw [hlen1]
    rw [popAux_setBound w (s.trail.length + 1) 1 t1 (by decide) hgl]
    have hgl2 : ({ restore_bound t1 with
        trail := (restore_bound t1).trail.dropLast } : Fixplex).trail.getLast?
        = some Trail.incLevel := by
      show t1.trail.dropLast.getLast? = _
      rw [htr, hassoc, List.dropLast_concat]
      exact List.getLast?_concat _
    rw [popAux_incLevel w s.trail.length 1 _ (by decide) hgl2]
    rw [popAux_zero_n]
  rw [hpop]
  refine ⟨?_, hmat, hil, hineq⟩
  show intervalData (restore_bound t1) u = intervalData s u
  unfold intervalData
  rw [hrb u, getVar_setVarF]
  by_cases hu : u = v
  · rw [if_pos ⟨hu, hlen⟩, hu]
  · rw [if_neg (fun hc => hu hc.1)]
    exact hidata u hu

/-- C1: the claim that `push(); op; pop(1)` restores every variable's value
fails (see the counterexample, where `set_bounds` moves a non-base
variable's value via `update_value` and `pop` does not restore it); what
holds is the amended round trip: `push; set_bounds(v, l, h, d); pop(1)`
restores every variable's interval and endpoint dependencies bit-exact, and
leaves the matrix and the persistent inequality data unchanged. -/
theorem set_bounds_pop_roundtrip_c1 (w : Nat) (s : Fixplex) (v l h d u : Nat) :
    intervalData (pop w (set_bounds w (push s) v l h d) 1) u = intervalData s u ∧
    (pop w (set_bounds w (push s) v l h d) 1).mat = s.mat ∧
    (pop w (set_bounds w (push s) v l h d) 1).ineqs.length = s.ineqs.length ∧
    (∀ idx, ineqData (pop w (set_bounds w (push s) v l h d) 1) idx = ineqData s idx) := by
  have hEv : ∀ u2, getVar (ensure_var (push s) v) u2 = getVar s u2 :=
    fun u2 => getVar_ensure_var (push s) v u2
  have hElen : v < (ensure_var (push s) v).vars.length := by
    simp only [ensure_var, push, List.length_append, List.length_replicate]
    omega
  obtain ⟨ub1, ub2, ub3, ub4, ub5, ub6, ub7, ub8, ub9, ub10, ub11, ub12, ub13, ub14⟩ :=
    update_bounds_pres w (ensure_var (push s) v) v l h (Dep.leaf d)
  have FT : (update_bounds w (ensure_var (push s) v) v l h (Dep.leaf d)).trail
      = s.trail ++ [Trail.incLevel, Trail.setBound] := by
    rw [ub1]
    show (s.trail ++ [Trail.incLevel]) ++ [Trail.setBound] = _
    simp
  have FS : (update_bounds w (ensure_var (push s) v) v l h (Dep.leaf d)).stashed
      = s.stashed ++ [⟨v, (getVar s v).intv, (getVar s v).loDep, (getVar s v).hiDep⟩] := by
    rw [ub2, hEv v]
    rfl
  have FM : (update_bounds w (ensure_var (push s) v) v l h (Dep.leaf d)).mat = s.mat := ub3
  have FID : ∀ u2, u2 ≠ v →
      intervalData (update_bounds w (ensure_var (push s) v) v l h (Dep.leaf d)) u2
        = intervalData s u2 := by
    intro u2 hu
    unfold intervalData
    rw [ub13 u2 hu, hEv u2]
  have FIQ : ∀ idx, ineqData (update_bounds w (ensure_var (push s) v) v l h (Dep.leaf d)) idx
      = ineqData s idx := fun idx => ineqData_congr ub6 idx
  have FIL : (update_bounds w (ensure_var (push s) v) v l h (Dep.leaf d)).ineqs.length
      = s.ineqs.length := congrArg List.length ub6
  have FL : v < (update_bounds w (ensure_var (push s) v) v l h (Dep.leaf d)).vars.length := by
    rw [ub12]
    exact hElen
  simp only [set_bounds]
  split_ifs
  · exact pop_one_setBound w s _ v u FT FS FM FIQ FIL FID FL
  · obtain ⟨c1, c2, c3, c4, c5, c6, c7, c8, c9, c10⟩ :=
      add_patch_pres (update_bounds w (ensure_var (push s) v) v l h (Dep.leaf d)) v
    refine pop_one_setBound w s _ v u (c5.trans FT) (c6.trans FS) (c4.trans FM) ?_
      ((congrArg List.length c10).trans FIL) ?_ ?_
    · intro idx
      exact (ineqData_congr c10 idx).trans (FIQ idx)
    · intro u2 hu
      exact (intervalData_congr c1 u2).trans (FID u2 hu)
    · rw [congrArg List.length c1]
      exact FL
  · obtain ⟨uv1, uv2, uv3, uv4, uv5, uv6, uv7, uv8⟩ :=
      update_value_pres w (update_bounds w (ensure_var (push s) v) v l h (Dep.leaf d)) v
        (value2delta w (update_bounds w (ensure_var (push s) v) v l h (Dep.leaf d)) v
          (value (update_bounds w (ensure_var (push s) v) v l h (Dep.leaf d)) v))
    refine pop_one_setBound w s _ v u (uv4.trans FT) (uv5.trans FS) (uv2.trans FM) ?_
      (uv7.trans FIL) ?_ ?_
    · intro idx
      exact (uv8 idx).trans (FIQ idx)
    · intro u2 hu
      exact (uv1 u2).trans (FID u2 hu)
    · rw [vars_len_update_value]
      exact FL

/-- C1 counterexample, refuting the claim's universal over all public
operations twice over.  First, values: on a fresh one-variable solver,
`push; set_bounds(0, 5, 10, 7); pop(1)` leaves the variable's value at 5
while it was 0 before the push.  Second, intervals: popping an `add_row`
trail entry runs `del_row`, which sets the base variable's interval free
(fixplex_def.h, line 255) — on `sC1b` the pre-push interval `[5, 10[` of
variable 0 becomes the free interval after `pop(1)` instead of being
restored. -/
theorem set_bounds_pop_roundtrip_c1_counterexample :
    (value (pop 8 (set_bounds 8 (push sC1) 0 5 10 7) 1) 0 = 5 ∧ value sC1 0 = 0 ∧
      (5 : Nat) ≠ 0) ∧
    ((getVar sC1b 0).intv = ⟨5, 10⟩ ∧
      sC1b.trail = [Trail.incLevel, Trail.addRow] ∧
      (getVar (pop 8 sC1b 1) 0).intv = freeI ∧
      (⟨5, 10⟩ : MInterval) ≠ freeI) := by
  refine ⟨⟨?_, rfl, by decide⟩, rfl, rfl, ?_, by decide⟩
  · rfl
  · rfl

/-- C10: `update_value(v, 0)` returns immediately and leaves the entire
solver state unchanged: no value, cached row value, base value, patch entry
or inequality activation is modified. -/
theorem update_value_zero_c10 (w : Nat) (s : Fixplex) (v : Nat) :
    update_value w s v 0 = s := rfl

/-- C5: `solve_for(row_value, c)` returns `-row_value` when `c = 1`,
`row_value` when `c = M - 1`, `row_value / (M - c)` when `M - c < c`, and
`-(row_value / c)` otherwise, where `M = 2 ^ w` and subtraction is genuine
natural subtraction on reduced numerals. -/
theorem solve_for_c5 (w rv c : Nat) (hrv : rv < 2 ^ w) (hc : c < 2 ^ w) :
    solve_for w rv c =
      if c = 1 then (2 ^ w - rv) % 2 ^ w
      else if c = 2 ^ w - 1 then rv
      else if 2 ^ w - c < c then rv / (2 ^ w - c)
      else (2 ^ w - rv / c % 2 ^ w) % 2 ^ w := by
  have hM : 0 < 2 ^ w := pow_pos (by decide) w
  unfold solve_for msub
  by_cases h1 : c = 1
  · rw [if_pos h1, if_pos h1, Nat.mod_eq_of_lt hrv, Nat.zero_add]
  · rw [if_neg h1, if_neg h1]
    have heq2 : ((c + 1) % 2 ^ w = 0) ↔ (c = 2 ^ w - 1) := by
      constructor
      · intro hh
        have hd := Nat.dvd_of_mod_eq_zero hh
        have hge := Nat.le_of_dvd (by omega) hd
        omega
      · intro hh
        have : c + 1 = 2 ^ w := by omega
        rw [this, Nat.mod_self]
    by_cases h2 : (c + 1) % 2 ^ w = 0
    · rw [if_pos h2, if_pos (heq2.mp h2)]
    · rw [if_neg h2, if_neg (fun hh => h2 (heq2.mpr hh))]
      by_cases hc0 : c = 0
      · subst hc0
        have hz : (0 + (2 ^ w - 0 % 2 ^ w)) % 2 ^ w = 0 := by
          simp
        rw [hz]
        rw [if_neg (by omega : ¬(0 : Nat) < 0), if_neg (by omega : ¬2 ^ w - 0 < 0)]
        simp
      · have hcm : c % 2 ^ w = c := Nat.mod_eq_of_lt hc
        have hlt : 2 ^ w - c < 2 ^ w := by omega
        have hmsub : (0 + (2 ^ w - c % 2 ^ w)) % 2 ^ w = 2 ^ w - c := by
          rw [hcm, Nat.zero_add, Nat.mod_eq_of_lt hlt]
        rw [hmsub]
        by_cases h3 : 2 ^ w - c < c
        · rw [if_pos h3, if_pos h3]
        · rw [if_neg h3, if_neg h3, Nat.zero_add]

/-- C5 witness: the theorem applied at `w = 8`, `row_value = 100`, `c = 7`. -/
theorem solve_for_c5_witness :
    (100 < 2 ^ 8 ∧ 7 < 2 ^ 8) ∧
    solve_for 8 100 7 =
      if (7 : Nat) = 1 then (2 ^ 8 - 100) % 2 ^ 8
      else if (7 : Nat) = 2 ^ 8 - 1 then 100
      else if 2 ^ 8 - 7 < 7 then 100 / (2 ^ 8 - 7)
      else (2 ^ 8 - 100 / 7 % 2 ^ 8) % 2 ^ 8 :=
  ⟨⟨by decide, by decide⟩, solve_for_c5 8 100 7 (by decide) (by decide)⟩

theorem parityFold (w : Nat) (s : Fixplex) (r : Nat) (l : List Nat) :
    ∀ a b : Nat, (l.foldl
      (fun (acc : Nat × Nat) v =>
        if isFixed w s v then ((acc.1 + value s v * s.mat r v) % 2 ^ w, acc.2)
        else (acc.1, min (tz w (s.mat r v)) acc.2)) (a, b))
      = (l.foldl (fun acc v => if isFixed w s v then (acc + value s v * s.mat r v) % 2 ^ w else acc) a,
         l.foldl (fun acc v => if isFixed w s v then acc else min (tz w (s.mat r v)) acc) b) := by
  induction l with
  | nil => exact fun _ _ => rfl
  | cons x xs ih =>
    intro a b
    by_cases hf : isFixed w s x = true
    · simp only [List.foldl_cons, if_pos hf]
      exact ih _ _
    · simp only [List.foldl_cons, if_neg hf]
      exact ih _ _

/-- C8: for a base variable `x`, `is_parity_infeasible_row(x)` returns false
on a row whose integrality flag is set, and on a non-integral row it returns
true exactly when the trailing-zero count of the fixed sum is below the
minimal parity of the non-fixed coefficients. -/
theorem is_parity_infeasible_row_c8 (w : Nat) (s : Fixplex) (x : Nat)
    (hb : isBase s x = true) :
    (rowIntegral s (base2row s x) = true → is_parity_infeasible_row w s x = false) ∧
    (rowIntegral s (base2row s x) = false →
      (is_parity_infeasible_row w s x = true ↔
        tz w (rowFixedSum w s (base2row s x)) < rowParity w s (base2row s x))) := by
  unfold is_parity_infeasible_row
  constructor
  · intro hint
    rw [if_pos hint]
  · intro hint
    rw [if_neg (by simp [hint])]
    rw [parityFold]
    unfold rowFixedSum rowParity
    simp

/-- C8 witness: the theorem applied to the non-integral row of `sC8`, whose
fixed sum has trailing-zero count 1 and whose non-fixed parity is 2. -/
theorem is_parity_infeasible_row_c8_witness :
    isBase sC8 2 = true ∧ rowIntegral sC8 (base2row sC8 2) = false ∧
    (is_parity_infeasible_row 8 sC8 2 = true ↔
      tz 8 (rowFixedSum 8 sC8 (base2row sC8 2)) < rowParity 8 sC8 (base2row sC8 2)) :=
  ⟨by decide, by decide, (is_parity_infeasible_row_c8 8 sC8 2 (by decide)).2 (by decide)⟩

/-- C7: contrary to the claim that an empty interval on a non-base variable
causes immediate UNSAT, `make_feasible` answers `l_true` on a state where the
non-base variable 0 carries the empty interval `[20, 20[` (two `set_bounds`
calls with disjoint ranges): the variable is never enqueued for patching, so
the empty interval is ignored, even though `well_formed()` is violated. -/
theorem make_feasible_empty_nonbase_c7 :
    (getVar sC7 0).intv.isEmptyB = true ∧ isBase sC7 0 = false ∧
    (make_feasible 8 100 sC7).2 = Lbool.ltrue ∧ well_formed 8 sC7 = false :=
  ⟨rfl, rfl, rfl, rfl⟩

theorem elimAux (w : Nat) (S2 : Fixplex) (rz z val bc : Nat)
    (hrz : rz < S2.rows.length) :
    (set_base_value w (setRowF (setRowF S2 rz (fun ri => { ri with value := val })) rz
        (fun ri => { ri with baseCoeff := (ri.baseCoeff * bc) % 2 ^ w })) z).mat = S2.mat ∧
    row2value (set_base_value w (setRowF (setRowF S2 rz (fun ri => { ri with value := val })) rz
        (fun ri => { ri with baseCoeff := (ri.baseCoeff * bc) % 2 ^ w })) z) rz = val ∧
    row2baseCoeff (set_base_value w (setRowF (setRowF S2 rz (fun ri => { ri with value := val })) rz
        (fun ri => { ri with baseCoeff := (ri.baseCoeff * bc) % 2 ^ w })) z) rz
      = (row2baseCoeff S2 rz * bc) % 2 ^ w := by
  obtain ⟨p1, p2, p3, p4, p5, p6, p7, p8, p9, p10, p11, p12, p13⟩ :=
    set_base_value_pres w (setRowF (setRowF S2 rz (fun ri => { ri with value := val })) rz
      (fun ri => { ri with baseCoeff := (ri.baseCoeff * bc) % 2 ^ w })) z
  have hl3 : rz < (setRowF S2 rz (fun ri => { ri with value := val })).rows.length := by
    simpa [setRowF] using hrz
  refine ⟨p2, ?_, ?_⟩
  · rw [p10 rz]
    unfold row2value
    rw [getRow_setRowF, if_pos ⟨rfl, hl3⟩, getRow_setRowF, if_pos ⟨rfl, hrz⟩]
  · rw [p12 rz]
    unfold row2baseCoeff
    rw [getRow_setRowF, if_pos ⟨rfl, hl3⟩, getRow_setRowF, if_pos ⟨rfl, hrz⟩]

/-- C2: `eliminate_var(r_y, r_z, c, tz_b, old_value_y)` uses the claimed
multipliers `b1` and `c1`, replaces row `r_z` pointwise by `b1·r_z + c1·r_y`,
sets the cached row value of `r_z` to
`b1·(row_value(r_z) - c·old_value_y) + c1·row_value(r_y)`, multiplies the base
coefficient of `r_z` by `b1`, and returns true iff `tz_b ≤ tz_c`. -/
theorem eliminate_var_c2 (w : Nat) (s : Fixplex) (ry rz c tzb oldY : Nat)
    (hne : rz ≠ ry) (hrz : rz < s.rows.length) :
    (∀ v, (eliminate_var w s ry rz c tzb oldY).1.mat rz v
        = (elimB1 w s ry c tzb * s.mat rz v + elimC1 w c tzb * s.mat ry v) % 2 ^ w) ∧
    row2value (eliminate_var w s ry rz c tzb oldY).1 rz
      = (elimB1 w s ry c tzb * msub w (row2value s rz) ((c * oldY) % 2 ^ w)
          + elimC1 w c tzb * row2value s ry) % 2 ^ w ∧
    row2baseCoeff (eliminate_var w s ry rz c tzb oldY).1 rz
      = (row2baseCoeff s rz * elimB1 w s ry c tzb) % 2 ^ w ∧
    ((eliminate_var w s ry rz c tzb oldY).2 = true ↔ tzb ≤ tz w c) := by
  have key1 : (eliminate_var w s ry rz c tzb oldY).1 =
      set_base_value w
        (setRowF (setRowF (elimS2 w s ry rz c tzb) rz
          (fun ri => { ri with value :=
            (elimB1 w s ry c tzb * msub w (row2value (elimS2 w s ry rz c tzb) rz) ((c * oldY) % 2 ^ w)
              + elimC1 w c tzb * row2value (elimS2 w s ry rz c tzb) ry) % 2 ^ w })) rz
          (fun ri => { ri with baseCoeff := (ri.baseCoeff * elimB1 w s ry c tzb) % 2 ^ w }))
        (row2base s rz) := rfl
  have key2 : (eliminate_var w s ry rz c tzb oldY).2 = decide (tzb ≤ tz w c) := rfl
  have hrz2 : rz < (elimS2 w s ry rz c tzb).rows.length := hrz
  obtain ⟨m1, m2, m3⟩ := elimAux w (elimS2 w s ry rz c tzb) rz (row2base s rz)
    ((elimB1 w s ry c tzb * msub w (row2value (elimS2 w s ry rz c tzb) rz) ((c * oldY) % 2 ^ w)
      + elimC1 w c tzb * row2value (elimS2 w s ry rz c tzb) ry) % 2 ^ w)
    (elimB1 w s ry c tzb) hrz2
  have hryz : ¬ ry = rz := fun h => hne h.symm
  refine ⟨?_, ?_, ?_, ?_⟩
  · intro v
    rw [key1, m1]
    simp only [elimS2, elimS1]
    simp [hryz]
    rw [Nat.mul_comm (s.mat rz v)]
  · rw [key1, m2]
    rfl
  · rw [key1, m3]
    rfl
  · rw [key2]
    exact decide_eq_true_iff

/-- C2 witness: the theorem applied on `sC2`, eliminating variable 1 (with
column coefficient 2) from row 1 using row 0 (base coefficient 6, so
`tz_b = 1`), with `old_value_y = 5`. -/
theorem eliminate_var_c2_witness :
    ((1 : Nat) ≠ 0 ∧ 1 < sC2.rows.length) ∧
    (eliminate_var 8 sC2 0 1 2 1 5).1.mat 1 1
      = (elimB1 8 sC2 0 2 1 * sC2.mat 1 1 + elimC1 8 2 1 * sC2.mat 0 1) % 2 ^ 8 ∧
    row2value (eliminate_var 8 sC2 0 1 2 1 5).1 1
      = (elimB1 8 sC2 0 2 1 * msub 8 (row2value sC2 1) ((2 * 5) % 2 ^ 8)
          + elimC1 8 2 1 * row2value sC2 0) % 2 ^ 8 ∧
    row2baseCoeff (eliminate_var 8 sC2 0 1 2 1 5).1 1
      = (row2baseCoeff sC2 1 * elimB1 8 sC2 0 2 1) % 2 ^ 8 ∧
    ((eliminate_var 8 sC2 0 1 2 1 5).2 = true ↔ 1 ≤ tz 8 2) :=
  ⟨⟨by decide, by decide⟩,
   (eliminate_var_c2 8 sC2 0 1 2 1 5 (by decide) (by decide)).1 1,
   (eliminate_var_c2 8 sC2 0 1 2 1 5 (by decide) (by decide)).2.1,
   (eliminate_var_c2 8 sC2 0 1 2 1 5 (by decide) (by decide)).2.2.1,
   (eliminate_var_c2 8 sC2 0 1 2 1 5 (by decide) (by decide)).2.2.2⟩

theorem pivotFold_snd (w rx tzb oldY : Nat) (L : List (Nat × Nat)) :
    ∀ (t : Fixplex) (bb : Bool),
      (pivotFold w rx tzb oldY (t, bb) L).2
        = (bb && L.all (fun rc => rc.1 == rx || decide (tzb ≤ tz w rc.2))) := by
  induction L with
  | nil =>
    intro t bb
    simp [pivotFold]
  | cons p rest ih =>
    intro t bb
    obtain ⟨rz, c⟩ := p
    by_cases h : rz = rx
    · simp only [pivotFold, if_pos h]
      rw [ih t bb]
      simp [h]
    · simp only [pivotFold, if_neg h]
      have he : (eliminate_var w (t, bb).1 rx rz c tzb oldY).2 = decide (tzb ≤ tz w c) := rfl
      rw [ih, he]
      have hb2 : (rz == rx) = false := by simp [h]
      simp [hb2, Bool.and_assoc]

theorem pivotS6_matrows (w : Nat) (s : Fixplex) (x y b newValue : Nat) :
    (pivotS6 w s x y b newValue).mat = s.mat ∧
    (pivotS6 w s x y b newValue).numRows = s.numRows := by
  simp only [pivotS6]
  constructor
  · rw [(add_patch_pres _ _).2.2.2.1, (touch_var_pres _ _).2.2.2.1]
    change (set_base_value w (setVarF (setRowF s _ _) y _) y).mat = s.mat
    rw [(set_base_value_pres w _ _).2.1]
    rfl
  · rw [(add_patch_pres _ _).2.2.1, (touch_var_pres _ _).2.2.1]
    change (set_base_value w (setVarF (setRowF s _ _) y _) y).numRows = s.numRows
    rw [(set_base_value_pres w _ _).2.2.1]
    rfl

/-- C3: when the pivot coefficient `b` has minimal trailing-zero count across
`y`'s column (`has_minimal_trailing_zeros`), every `eliminate_var` call of
`pivot(x, y, b, new_value)` takes the `tz_b ≤ tz_c` branch, so the conjunction
of the `VERIFY`'d losslessness flags returned by `pivot` is true. -/
theorem pivot_lossless_c3 (w : Nat) (s : Fixplex) (x y b newValue : Nat)
    (hmin : has_minimal_trailing_zeros w s y b = true) :
    (pivot w s x y b newValue).2 = true := by
  have key : (pivot w s x y b newValue).2
      = (pivotFold w (base2row s x) (tz w b) (value s y)
          (pivotS6 w s x y b newValue, true)
          ((colRows (pivotS6 w s x y b newValue) y).map
            (fun r => (r, (pivotS6 w s x y b newValue).mat r y)))).2 := rfl
  obtain ⟨hmat, hnum⟩ := pivotS6_matrows w s x y b newValue
  have hcol : colRows (pivotS6 w s x y b newValue) y = colRows s y := by
    unfold colRows
    rw [hmat, hnum]
  rw [key, pivotFold_snd, hcol, hmat, Bool.true_and, List.all_eq_true]
  intro rc hrc
  obtain ⟨r, hr, rfl⟩ := List.mem_map.mp hrc
  simp only [has_minimal_trailing_zeros] at hmin
  by_cases h0 : tz w b = 0
  · have hle : tz w b ≤ tz w (s.mat r y) := by omega
    simp [hle]
  · rw [if_neg h0, List.all_eq_true] at hmin
    have hm := hmin r hr
    simp only [decide_eq_true_eq] at hm
    simp [hm]

/-- C3 witness: the theorem applied on `sC3`, pivoting `x = 0` out for
`y = 1` with coefficient `b = 1` (trailing-zero count 0, hence minimal). -/
theorem pivot_lossless_c3_witness :
    has_minimal_trailing_zeros 8 sC3 1 1 = true ∧ (pivot 8 sC3 0 1 1 9).2 = true :=
  ⟨by decide, pivot_lossless_c3 8 sC3 0 1 1 9 (by decide)⟩

theorem add_free_left (w : Nat) (a b : MInterval) (h : a.isFreeB = true) :
    (MInterval.add w a b).isFreeB = true := by
  unfold MInterval.add
  rw [h]
  simp [freeI, MInterval.isFreeB]

theorem nfFold_free (w : Nat) (s : Fixplex) (r : Nat) (l : List Nat) :
    ∀ acc : MInterval, acc.isFreeB = true →
      (l.foldl (fun a v => if (getVar s v).intv.isFreeB then a
        else MInterval.add w a (MInterval.smul w (getVar s v).intv (s.mat r v))) acc).isFreeB
        = true := by
  induction l with
  | nil => intro acc h; simpa using h
  | cons v vs ih =>
    intro acc h
    simp only [List.foldl_cons]
    refine ih _ ?_
    split
    · exact h
    · exact add_free_left w acc _ h

theorem pbrScan_run (w : Nat) (s : Fixplex) (r : Nat) (l : List Nat) :
    ∀ (fv fc : Nat) (range : MInterval),
      (l.foldl (fun a v => if (getVar s v).intv.isFreeB then a
        else MInterval.add w a (MInterval.smul w (getVar s v).intv (s.mat r v))) range).isFreeB
        = false →
      ((l.filter (fun v => (getVar s v).intv.isFreeB)) = [] →
         pbrScan w s r l fv fc range
           = some (fv, fc, l.foldl (fun a v => if (getVar s v).intv.isFreeB then a
               else MInterval.add w a (MInterval.smul w (getVar s v).intv (s.mat r v))) range)) ∧
      (∀ v0, (l.filter (fun v => (getVar s v).intv.isFreeB)) = [v0] → fv = nullVar →
         pbrScan w s r l fv fc range
           = some (v0, s.mat r v0, l.foldl (fun a v => if (getVar s v).intv.isFreeB then a
               else MInterval.add w a (MInterval.smul w (getVar s v).intv (s.mat r v))) range)) := by
  induction l with
  | nil =>
    intro fv fc range hnf
    constructor
    · intro _; rfl
    · intro v0 hfil _; simp at hfil
  | cons v vs ih =>
    intro fv fc range hnf
    by_cases hf : (getVar s v).intv.isFreeB = true
    · have hnf2 : (vs.foldl (fun a v => if (getVar s v).intv.isFreeB then a
          else MInterval.add w a (MInterval.smul w (getVar s v).intv (s.mat r v))) range).isFreeB
          = false := by
        simpa [List.foldl_cons, hf] using hnf
      constructor
      · intro hfil
        simp [List.filter_cons, hf] at hfil
      · intro v0 hfil hfv
        have hv : v = v0 ∧ vs.filter (fun v => (getVar s v).intv.isFreeB) = [] := by
          simpa [List.filter_cons, hf] using hfil
        obtain ⟨hveq, htail⟩ := hv
        subst hveq
        simp only [pbrScan]
        rw [if_pos hf, if_neg (fun hcon => hcon hfv)]
        rw [(ih v (s.mat r v) range hnf2).1 htail]
        simp [List.foldl_cons, hf]
    · have hff : (getVar s v).intv.isFreeB = false := by
        cases hq : (getVar s v).intv.isFreeB
        · rfl
        · exact absurd hq hf
      have hnf2 : (vs.foldl (fun a v => if (getVar s v).intv.isFreeB then a
          else MInterval.add w a (MInterval.smul w (getVar s v).intv (s.mat r v)))
            (MInterval.add w range (MInterval.smul w (getVar s v).intv (s.mat r v)))).isFreeB
          = false := by
        simpa [List.foldl_cons, hff] using hnf
      have h2 : (MInterval.add w range (MInterval.smul w (getVar s v).intv (s.mat r v))).isFreeB
          = false := by
        cases h2 : (MInterval.add w range (MInterval.smul w (getVar s v).intv (s.mat r v))).isFreeB
        · rfl
        · rw [nfFold_free w s r vs _ h2] at hnf2
          exact absurd hnf2 (by decide)
      obtain ⟨ih1, ih2⟩ := ih fv fc
        (MInterval.add w range (MInterval.smul w (getVar s v).intv (s.mat r v))) hnf2
      constructor
      · intro hfil
        have htail : vs.filter (fun v => (getVar s v).intv.isFreeB) = [] := by
          simpa [List.filter_cons, hff] using hfil
        simp only [pbrScan]
        rw [if_neg hf, if_neg (by simp [h2])]
        rw [ih1 htail]
        simp [List.foldl_cons, hff]
      · intro v0 hfil hfv
        have htail : vs.filter (fun v => (getVar s v).intv.isFreeB) = [v0] := by
          simpa [List.filter_cons, hff] using hfil
        simp only [pbrScan]
        rw [if_neg hf, if_neg (by simp [h2])]
        rw [ih2 v0 htail hfv]
        simp [List.foldl_cons, hff]

/-- C4: in `propagate_bounds(row)`, when exactly one variable of the row is
free the candidate interval installed for it is the negated sum of the other
variables' scaled intervals MULTIPLIED by that variable's coefficient
(`range2 = (-range) * free_c`), not divided as the specification states; when
no variable is free each variable receives the accumulated sum minus its own
scaled term. -/
theorem propagate_bounds_row_c4 (w : Nat) (s : Fixplex) (r : Nat)
    (hnf : (rowRangeNonFree w s r).isFreeB = false)
    (hlen : s.vars.length < nullVar) :
    (∀ v0 c0, freeEntriesOf s r = [(v0, c0)] →
       propagate_bounds_row w s r =
         ((new_bound_row w s r v0
             (MInterval.smul w (MInterval.neg w (rowRangeNonFree w s r)) c0)).1,
          if (new_bound_row w s r v0
              (MInterval.smul w (MInterval.neg w (rowRangeNonFree w s r)) c0)).2
            then Lbool.ltrue else Lbool.lfalse)) ∧
    (freeEntriesOf s r = [] →
       propagate_bounds_row w s r
         = installLoop w r (rowRangeNonFree w s r) s (rowVars s r)) := by
  have hnf' : ((rowVars s r).foldl (fun a v => if (getVar s v).intv.isFreeB then a
      else MInterval.add w a (MInterval.smul w (getVar s v).intv (s.mat r v))) ⟨0, 1⟩).isFreeB
      = false := hnf
  obtain ⟨part1, part2⟩ := pbrScan_run w s r (rowVars s r) nullVar 0 ⟨0, 1⟩ hnf'
  constructor
  · intro v0 c0 hfe
    have hpair : (rowVars s r).filter (fun v => (getVar s v).intv.isFreeB) = [v0]
        ∧ c0 = s.mat r v0 := by
      unfold freeEntriesOf at hfe
      cases hq : (rowVars s r).filter (fun v => (getVar s v).intv.isFreeB) with
      | nil => rw [hq] at hfe; simp at hfe
      | cons a tail =>
        cases tail with
        | nil =>
          rw [hq] at hfe
          simp at hfe
          obtain ⟨h1, h2⟩ := hfe
          exact ⟨by rw [h1], by rw [← h1, h2]⟩
        | cons b t2 => rw [hq] at hfe; simp at hfe
    obtain ⟨hfil, hc0⟩ := hpair
    subst hc0
    have hrun := part2 v0 hfil rfl
    have hv0mem : v0 ∈ rowVars s r := by
      have hm : v0 ∈ (rowVars s r).filter (fun v => (getVar s v).intv.isFreeB) := by
        rw [hfil]; simp
      exact List.mem_of_mem_filter hm
    have hv0lt : v0 < s.vars.length := by
      unfold rowVars at hv0mem
      exact List.mem_range.mp (List.mem_of_mem_filter hv0mem)
    have hv0ne : v0 ≠ nullVar := by
      unfold nullVar at hlen ⊢
      omega
    unfold propagate_bounds_row
    rw [hrun]
    change (if v0 ≠ nullVar then _ else _) = _
    rw [if_pos hv0ne]
    rfl
  · intro hfe
    have hfil : (rowVars s r).filter (fun v => (getVar s v).intv.isFreeB) = [] := by
      unfold freeEntriesOf at hfe
      cases hq : (rowVars s r).filter (fun v => (getVar s v).intv.isFreeB) with
      | nil => rfl
      | cons a tail => rw [hq] at hfe; simp at hfe
    have hrun := part1 hfil
    unfold propagate_bounds_row
    rw [hrun]
    change (if nullVar ≠ nullVar then _ else _) = _
    rw [if_neg (fun hcon => hcon rfl)]
    rfl

/-- C4 witness: the theorem applied on `sC4` (row `2·x0 + x1` with `x0` the
unique free variable, coefficient 2). -/
theorem propagate_bounds_row_c4_witness :
    ((rowRangeNonFree 8 sC4 0).isFreeB = false ∧ sC4.vars.length < nullVar ∧
      freeEntriesOf sC4 0 = [(0, 2)]) ∧
    propagate_bounds_row 8 sC4 0 =
      ((new_bound_row 8 sC4 0 0
          (MInterval.smul 8 (MInterval.neg 8 (rowRangeNonFree 8 sC4 0)) 2)).1,
       if (new_bound_row 8 sC4 0 0
            (MInterval.smul 8 (MInterval.neg 8 (rowRangeNonFree 8 sC4 0)) 2)).2
         then Lbool.ltrue else Lbool.lfalse) :=
  ⟨⟨by decide, by decide, by decide⟩,
   (propagate_bounds_row_c4 8 sC4 0 (by decide) (by decide)).1 0 2 (by decide)⟩

/-- C4 counterexample to the claim's division: on `sC4` the sum of the bound
variables' scaled intervals is `[6, 7[`, its negation is `[250, 251[`, and the
interval installed for the free variable 0 is `(-range) * 2 = [244, 245[`.
Had the code divided by the coefficient, the installed interval would contain
every `v` with `2·v ∈ [250, 251[` — in particular `v = 253`, since
`2·253 mod 256 = 250` — but `253` is excluded. -/
theorem propagate_bounds_row_c4_counterexample :
    freeEntriesOf sC4 0 = [(0, 2)] ∧
    MInterval.neg 8 (rowRangeNonFree 8 sC4 0) = ⟨250, 251⟩ ∧
    (getVar (propagate_bounds_row 8 sC4 0).1 0).intv = ⟨244, 245⟩ ∧
    MInterval.containsB (MInterval.neg 8 (rowRangeNonFree 8 sC4 0)) ((2 * 253) % 2 ^ 8) = true ∧
    MInterval.containsB (getVar (propagate_bounds_row 8 sC4 0).1 0).intv 253 = false :=
  ⟨rfl, rfl, rfl, rfl, rfl⟩

/-- C6: the implied-equality machinery only runs on the `new_bound(row)`
propagation path, not on `set_value`/`update_bounds`.  When `new_bound(row)`
newly fixes a non-empty interval it calls `fixed_var_eh`, and a valid
collision in the fixed-value table emits the equality `(x, y)`; the
`set_value` route of the claim never reaches `fixed_var_eh`
(the counterexample shows two `set_value` calls record nothing). -/
theorem new_bound_row_fixed_c6 (w : Nat) (s : Fixplex) (r x : Nat) (range : MInterval)
    (hfr : range.isFreeB = false)
    (hwas : ((lo s x + 1) % 2 ^ w == hi s x) = false)
    (hne : (getVar (update_bounds w s x range.lo range.hi (row2dep s r)) x).intv.isEmptyB = false)
    (hnow : ((lo (update_bounds w s x range.lo range.hi (row2dep s r)) x + 1) % 2 ^ w
              == hi (update_bounds w s x range.lo range.hi (row2dep s r)) x) = true) :
    new_bound_row w s r x range
      = (fixed_var_eh w (update_bounds w s x range.lo range.hi (row2dep s r)) r x, true) ∧
    (∀ t : Fixplex, ∀ y r2 : Nat,
       t.value2fixed (value t x) = some (y, r2) →
       isValidVar t y = true ∧ isFixed w t y = true ∧ value t y = value t x ∧ y ≠ x →
       fixed_var_eh w t r x = eq_eh t x y r2 r ∧
       (eq_eh t x y r2 r).varEqs = t.varEqs ++ [(x, y, r2, r)]) := by
  constructor
  · simp only [new_bound_row]
    rw [if_neg (by simp [hfr]), if_neg (by simp [hne]), hwas, hnow]
    rw [if_pos (by decide)]
  · intro t y r2 hlook hcond
    obtain ⟨hv, hf, hval, hyx⟩ := hcond
    constructor
    · simp only [fixed_var_eh, hlook]
      rw [if_pos ⟨hv, hf, hval, hyx⟩]
    · rfl

/-- C6 witness: the theorem applied on `sC6`, where variable 1 is already
fixed at 42 and registered in the fixed-value table; `new_bound(row 5)` fixes
variable 0 at 42 and the collision emits the equality `(0, 1)`. -/
theorem new_bound_row_fixed_c6_witness :
    ((MInterval.isFreeB ⟨42, 43⟩ = false) ∧
     ((lo sC6 0 + 1) % 2 ^ 8 == hi sC6 0) = false ∧
     (getVar (update_bounds 8 sC6 0 42 43 (row2dep sC6 5)) 0).intv.isEmptyB = false ∧
     ((lo (update_bounds 8 sC6 0 42 43 (row2dep sC6 5)) 0 + 1) % 2 ^ 8
        == hi (update_bounds 8 sC6 0 42 43 (row2dep sC6 5)) 0) = true) ∧
    new_bound_row 8 sC6 5 0 ⟨42, 43⟩
      = (fixed_var_eh 8 (update_bounds 8 sC6 0 42 43 (row2dep sC6 5)) 5 0, true) ∧
    fixed_var_eh 8 (update_bounds 8 sC6 0 42 43 (row2dep sC6 5)) 5 0
      = eq_eh (update_bounds 8 sC6 0 42 43 (row2dep sC6 5)) 0 1 0 5 ∧
    (eq_eh (update_bounds 8 sC6 0 42 43 (row2dep sC6 5)) 0 1 0 5).varEqs
      = (update_bounds 8 sC6 0 42 43 (row2dep sC6 5)).varEqs ++ [(0, 1, 0, 5)] :=
  ⟨⟨by decide, by decide, by decide, by decide⟩,
   (new_bound_row_fixed_c6 8 sC6 5 0 ⟨42, 43⟩ (by decide) (by decide) (by decide) (by decide)).1,
   ((new_bound_row_fixed_c6 8 sC6 5 0 ⟨42, 43⟩ (by decide) (by decide) (by decide) (by decide)).2
     (update_bounds 8 sC6 0 42 43 (row2dep sC6 5)) 1 0 (by decide)
     ⟨by decide, by decide, by decide, by decide⟩).1,
   ((new_bound_row_fixed_c6 8 sC6 5 0 ⟨42, 43⟩ (by decide) (by decide) (by decide) (by decide)).2
     (update_bounds 8 sC6 0 42 43 (row2dep sC6 5)) 1 0 (by decide)
     ⟨by decide, by decide, by decide, by decide⟩).2⟩

/-- C6 counterexample to the claim's `set_value` scenario: two `set_value`
calls fixing distinct fresh variables to 42 record no equality — the
variable-equalities list stays empty and the fixed-value table is never even
populated, because `update_bounds` does not invoke `fixed_var_eh`. -/
theorem set_value_no_equality_c6_counterexample :
    sC6run.varEqs = [] ∧ sC6run.value2fixed 42 = none ∧
    isFixed 8 sC6run 0 = true ∧ isFixed 8 sC6run 1 = true ∧
    value sC6run 0 = 42 ∧ value sC6run 1 = 42 ∧ (0 : Nat) ≠ 1 :=
  ⟨rfl, rfl, rfl, rfl, rfl, rfl, by decide⟩

theorem touchFold_active (L : List Nat) : ∀ (t : Fixplex) (idx : Nat),
    (activeAt t idx → activeAt (touchFold t L) idx) ∧
    (idx ∈ L → idx < t.ineqs.length → activeAt (touchFold t L) idx) ∧
    (idx ∈ t.pending → idx ∈ (touchFold t L).pending) ∧
    (idx ∈ L → idx < t.ineqs.length →
      activeAt t idx ∨ idx ∈ (touchFold t L).pending) := by
  induction L with
  | nil =>
    intro t idx
    refine ⟨fun h => h, ?_, fun h => h, ?_⟩
    · intro hm; simp at hm
    · intro hm; simp at hm
  | cons j rest ih =>
    intro t idx
    by_cases ha : (t.ineqs.getD j dIneq).active = true
    · simp only [touchFold, if_pos ha]
      obtain ⟨i1, i2, i3, i4⟩ := ih t idx
      refine ⟨i1, ?_, i3, ?_⟩
      · intro hm hlt
        rcases List.mem_cons.mp hm with he | he
        · subst he; exact i1 ha
        · exact i2 he hlt
      · intro hm hlt
        rcases List.mem_cons.mp hm with he | he
        · subst he; exact Or.inl ha
        · exact i4 he hlt
    · simp only [touchFold, if_neg ha]
      obtain ⟨i1, i2, i3, i4⟩ := ih
        { t with
          ineqs := t.ineqs.set j { t.ineqs.getD j dIneq with active := true },
          pending := t.pending ++ [j] } idx
      have hlenset : (t.ineqs.set j { t.ineqs.getD j dIneq with active := true }).length
          = t.ineqs.length := List.length_set t.ineqs j _
      have hlt2 : ∀ {m : Nat}, m < t.ineqs.length →
          m < (t.ineqs.set j { t.ineqs.getD j dIneq with active := true }).length := by
        intro m hm
        rw [hlenset]
        exact hm
      refine ⟨?_, ?_, ?_, ?_⟩
      · intro h
        refine i1 ?_
        unfold activeAt at h ⊢
        by_cases he : idx = j
        · subst he
          by_cases hj : idx < t.ineqs.length
          · rw [getD_set_self _ _ _ _ hj]
          · rw [List.getD_eq_default _ _ (by omega : t.ineqs.length ≤ idx)] at h
            rw [List.getD_eq_default _ _ (by omega : (t.ineqs.set idx _).length ≤ idx)]
            exact h
        · rw [getD_set_ne _ _ _ _ _ (fun hc => he hc.symm)]
          exact h
      · intro hm hlt
        rcases List.mem_cons.mp hm with he | he
        · subst he
          refine i1 ?_
          unfold activeAt
          rw [getD_set_self _ _ _ _ hlt]
        · exact i2 he (hlt2 hlt)
      · intro h
        exact i3 (by simp [h])
      · intro hm hlt
        rcases List.mem_cons.mp hm with he | he
        · subst he
          exact Or.inr (i3 (by simp))
        · rcases i4 he (hlt2 hlt) with hl | hr
          · by_cases hej : idx = j
            · subst hej
              exact Or.inr (i3 (by simp))
            · refine Or.inl ?_
              unfold activeAt at hl ⊢
              rw [getD_set_ne _ _ _ _ _ (fun hc => hej hc.symm)] at hl
              exact hl
          · exact Or.inr hr

theorem touch_var_marks (s : Fixplex) (v idx : Nat)
    (ht : s.touched v = false) (hv : v < s.var2ineqs.length)
    (hidx : idx ∈ s.var2ineqs.getD v []) (hlen : idx < s.ineqs.length) :
    activeAt (touch_var s v) idx ∧
    (activeAt s idx ∨ idx ∈ (touch_var s v).pending) := by
  unfold touch_var
  rw [if_neg (Nat.not_le.mpr hv), if_neg (by simp [ht])]
  obtain ⟨-, i2, -, i4⟩ := touchFold_active (s.var2ineqs.getD v [])
    { s with touched := fun u => if u = v then true else s.touched u } idx
  exact ⟨i2 hidx hlen, i4 hidx hlen⟩

theorem touch_var_mono (s : Fixplex) (v idx : Nat) (h : activeAt s idx) :
    activeAt (touch_var s v) idx := by
  unfold touch_var
  split_ifs with h1 h2
  · exact h
  · exact h
  · exact (touchFold_active _ _ idx).1 h

theorem add_patch_mono (s : Fixplex) (v idx : Nat) (h : activeAt s idx) :
    activeAt (add_patch s v) idx := by
  unfold activeAt at h ⊢
  rw [(add_patch_pres s v).2.2.2.2.2.2.2.2.2]
  exact h

theorem set_base_value_mono (w : Nat) (s : Fixplex) (x idx : Nat)
    (h : activeAt s idx) : activeAt (set_base_value w s x) idx := by
  simp only [set_base_value]
  have h2 : activeAt (touch_var (setVarF s x (fun vi => { vi with value := solve_for w (row2value s (base2row s x)) (row2baseCoeff s (base2row s x)) })) x) idx :=
    touch_var_mono _ x idx h
  split_ifs
  · exact h2
  · exact h2
  · exact h2

theorem uvFold_mono (w v delta : Nat) (L : List Nat) :
    ∀ (t : Fixplex) (idx : Nat), activeAt t idx → activeAt (uvFold w v delta t L) idx := by
  induction L with
  | nil => intro t idx h; exact h
  | cons r rest ih =>
    intro t idx h
    simp only [uvFold]
    refine ih _ idx ?_
    refine add_patch_mono _ _ idx ?_
    refine set_base_value_mono w _ _ idx ?_
    exact h

theorem eliminate_var_mono (w : Nat) (s : Fixplex) (ry rz c tzb oldY idx : Nat)
    (h : activeAt s idx) : activeAt (eliminate_var w s ry rz c tzb oldY).1 idx := by
  simp only [eliminate_var]
  exact set_base_value_mono w _ _ idx h

theorem pivotFold_mono (w rx tzb oldY : Nat) (L : List (Nat × Nat)) :
    ∀ (t : Fixplex) (bb : Bool) (idx : Nat), activeAt t idx →
      activeAt (pivotFold w rx tzb oldY (t, bb) L).1 idx := by
  induction L with
  | nil => intro t bb idx h; exact h
  | cons p rest ih =>
    intro t bb idx h
    obtain ⟨rz, c⟩ := p
    by_cases hz : rz = rx
    · simp only [pivotFold, if_pos hz]
      exact ih t bb idx h
    · simp only [pivotFold, if_neg hz]
      refine ih _ _ idx ?_
      refine add_patch_mono _ _ idx ?_
      exact eliminate_var_mono w _ rx rz c tzb oldY idx h

theorem pivotS6_active (w : Nat) (s : Fixplex) (x y b newValue idx : Nat)
    (hxy : x ≠ y) (ht : s.touched x = false) (hv : x < s.var2ineqs.length)
    (hidx : idx ∈ s.var2ineqs.getD x []) (hlen : idx < s.ineqs.length) :
    activeAt (pivotS6 w s x y b newValue) idx := by
  simp only [pivotS6]
  refine add_patch_mono _ _ idx ?_
  refine (touch_var_marks _ x idx ?_ ?_ ?_ ?_).1
  · show (set_base_value w _ y).touched x = false
    rw [(set_base_value_pres w _ y).2.2.2.2.2.2.2.2.2.2.2.2 x hxy]
    exact ht
  · show x < (set_base_value w _ y).var2ineqs.length
    rw [(set_base_value_pres w _ y).2.2.2.2.2.2.1]
    exact hv
  · show idx ∈ (set_base_value w _ y).var2ineqs.getD x []
    rw [(set_base_value_pres w _ y).2.2.2.2.2.2.1]
    exact hidx
  · show idx < (set_base_value w _ y).ineqs.length
    rw [(set_base_value_pres w _ y).2.2.2.2.2.2.2.1]
    exact hlen

/-- C9 (corrected): `touch_var(v)` on a not-yet-touched variable activates
every inequality of `v`'s index list and, unless it was already active, puts
it on the pending list; `update_value` (with a non-zero delta),
`set_base_value` and `pivot` all route through `touch_var` on the changed
variable, so the inequality ends up active after each of these operations.
For an already-touched variable `touch_var` returns immediately and
activates nothing (see the counterexample for an inequality left inactive
this way).  Re-examination before a SAT answer is nevertheless preserved:
`add_ineq` itself pushes every new inequality onto the pending list, and
`ineqs_are_satisfied` answers true exactly when every pending index passes
the value check, irrespective of the active flag. -/
theorem touch_var_c9 (w : Nat) (s : Fixplex) (v idx : Nat)
    (ht : s.touched v = false) (hv : v < s.var2ineqs.length)
    (hidx : idx ∈ s.var2ineqs.getD v []) (hlen : idx < s.ineqs.length) :
    (activeAt (touch_var s v) idx ∧ (activeAt s idx ∨ idx ∈ (touch_var s v).pending)) ∧
    (∀ delta, delta ≠ 0 → activeAt (update_value w s v delta) idx) ∧
    activeAt (set_base_value w s v) idx ∧
    (∀ y b newValue, v ≠ y → activeAt (pivot w s v y b newValue).1 idx) ∧
    (∀ u, s.touched u = true → touch_var s u = s) ∧
    (∀ a b2 dep strict, (add_ineq s a b2 dep strict).pending = s.pending ++ [s.ineqs.length]) ∧
    ((ineqs_are_satisfied s).2 = true ↔ ∀ idx2 ∈ s.pending, checkIneqSat s idx2 = true) := by
  refine ⟨touch_var_marks s v idx ht hv hidx hlen, ?_, ?_, ?_, ?_, ?_, ?_⟩
  · intro delta hd
    simp only [update_value]
    rw [if_neg hd]
    refine uvFold_mono w v delta _ _ idx ?_
    exact (touch_var_marks (setVarF s v (fun vi => { vi with value := (vi.value + delta) % 2 ^ w })) v idx ht hv hidx hlen).1
  · simp only [set_base_value]
    have h2 := (touch_var_marks (setVarF s v (fun vi => { vi with value := solve_for w (row2value s (base2row s v)) (row2baseCoeff s (base2row s v)) })) v idx ht hv hidx hlen).1
    split_ifs
    · exact h2
    · exact h2
    · exact h2
  · intro y b newValue hxy
    have key : (pivot w s v y b newValue).1
        = (pivotFold w (base2row s v) (tz w b) (value s y)
            (pivotS6 w s v y b newValue, true)
            ((colRows (pivotS6 w s v y b newValue) y).map
              (fun r => (r, (pivotS6 w s v y b newValue).mat r y)))).1 := rfl
    unfold activeAt
    rw [key]
    exact pivotFold_mono w (base2row s v) (tz w b) (value s y) _ _ true idx
      (pivotS6_active w s v y b newValue idx hxy ht hv hidx hlen)
  · intro u hu
    unfold touch_var
    split_ifs <;> rfl
  · intro a b2 dep strict
    rfl
  · by_cases hall : s.pending.all (fun idx2 => checkIneqSat s idx2) = true
    · unfold ineqs_are_satisfied
      rw [if_pos hall]
      exact iff_of_true rfl (List.all_eq_true.mp hall)
    · unfold ineqs_are_satisfied
      rw [if_neg hall]
      exact iff_of_false (by simp) (fun hA => hall (List.all_eq_true.mpr hA))

/-- C9 witness: the theorem applied on `sC9` (variable 0 not yet touched,
inequality 0 on its list): `touch_var`, `update_value`, `set_base_value` and
`pivot` each leave inequality 0 active; `add_ineq` appends the fresh index to
the pending list, and `ineqs_are_satisfied` answers by checking exactly the
pending indices. -/
theorem touch_var_c9_witness :
    (sC9.touched 0 = false ∧ 0 < sC9.var2ineqs.length ∧
      0 ∈ sC9.var2ineqs.getD 0 [] ∧ 0 < sC9.ineqs.length) ∧
    activeAt (touch_var sC9 0) 0 ∧
    activeAt (update_value 8 sC9 0 1) 0 ∧
    activeAt (set_base_value 8 sC9 0) 0 ∧
    activeAt (pivot 8 sC9 0 1 1 5).1 0 ∧
    (add_ineq sC9 0 1 7 false).pending = sC9.pending ++ [sC9.ineqs.length] ∧
    ((ineqs_are_satisfied sC9).2 = true ↔ ∀ idx2 ∈ sC9.pending, checkIneqSat sC9 idx2 = true) :=
  ⟨⟨by decide, by decide, by decide, by decide⟩,
   ((touch_var_c9 8 sC9 0 0 (by decide) (by decide) (by decide) (by decide)).1).1,
   (touch_var_c9 8 sC9 0 0 (by decide) (by decide) (by decide) (by decide)).2.1 1 (by decide),
   (touch_var_c9 8 sC9 0 0 (by decide) (by decide) (by decide) (by decide)).2.2.1,
   (touch_var_c9 8 sC9 0 0 (by decide) (by decide) (by decide) (by decide)).2.2.2.1 1 1 5 (by decide),
   (touch_var_c9 8 sC9 0 0 (by decide) (by decide) (by decide) (by decide)).2.2.2.2.2.1 0 1 7 false,
   (touch_var_c9 8 sC9 0 0 (by decide) (by decide) (by decide) (by decide)).2.2.2.2.2.2⟩

/-- C9 counterexample to the claim's marking guarantee: in `sC9run`, a first
`update_value` on variable 0 touches it; a second inequality (index 1) on
variable 0 is then added inactive, and the second `update_value` (non-zero
delta, value changes) does NOT activate it — `touch_var` early-outs on the
already-touched variable, so the claimed "marks every inequality mentioning
the variable as active" fails.  The inequality is still on the pending list
(placed there by `add_ineq` itself), which is how re-examination survives. -/
theorem touch_var_c9_counterexample :
    (sC9run.ineqs.getD 1 dIneq).active = false ∧
    1 ∈ sC9run.var2ineqs.getD 0 [] ∧
    sC9run.touched 0 = true ∧
    (sC9run.ineqs.getD 0 dIneq).active = true ∧
    1 ∈ sC9run.pending :=
  ⟨rfl, by decide, rfl, rfl, by decide⟩
